import Mathlib

/-!
# Template registry of `vt`: discovery and provider-path resolution

A shallow embedding of `pkg/template/template.go`.

## Modelling conventions

* The file system is a finite tree (`Node`).  A directory lists its entries in
  the order `os.ReadDir` returns them (ascending by file name on a real
  system); a symbolic link carries the node its target resolves to, if any;
  a regular file carries what the descriptor parser makes of its content.
* A Go function that receives a path and only uses it to reach the file
  system is embedded as a function of the node that the path denotes.  Where
  the source builds a path as a string and hands it to `os.Stat`, the string
  is kept and resolved against the disk (`statPath`).
* Inside one `filepath.WalkDir` the visited path is kept as the list `rel` of
  its components below the walk root, so `path == categoryPath` is
  `rel = []` and `strings.Count(relPath, "/") + 1` is the number of
  components of `rel` (file names contain no separator).
* Go maps are association lists with at most one entry per key.
* Input/output failures other than "no such file or directory" and "not a
  directory" (permissions, media errors) are outside the model.
-/

namespace Vt

/-! ## Data model -/

/-- Common Vulnerability Scoring System information (`Cvss`). -/
structure Cvss where
  Score : String
  Metrics : String
  deriving DecidableEq, Repr

/-- Metadata about a template (`Info`). -/
structure Info where
  Name : String
  Description : String
  Author : String
  Targets : List String
  Type_ : String
  AffectedVersions : List String
  FixedVersion : String
  Cwe : String
  Cvss : Cvss
  Tags : List String
  References : List String
  deriving DecidableEq, Repr

/-- Configuration for one provider (`ProviderConfig`). -/
structure ProviderConfig where
  Path : String
  deriving DecidableEq, Repr

/-- A vulnerable target environment configuration (`Template`). -/
structure Template where
  ID : String
  Info : Info
  ProofOfConcept : List (String × List String)
  Remediation : List String
  Providers : List (String × ProviderConfig)
  PostInstall : List String
  deriving DecidableEq, Repr

/-- The Go type `map[string]Template`. -/
abbrev TemplateMap := List (String × Template)

/-- Map read `m[k]` with the comma-ok result as an `Option`. -/
def mapGet {β : Type} : List (String × β) → String → Option β
  | [], _ => none
  | (k', v) :: rest, k => if k' = k then some v else mapGet rest k

/-- Map write `m[k] = v`: any previous entry for `k` is replaced. -/
def mapSet {β : Type} (m : List (String × β)) (k : String) (v : β) : List (String × β) :=
  (k, v) :: m.filter (fun e => decide (e.1 ≠ k))

/-- Errors returned by the template package, one constructor per
`fmt.Errorf` site; `scanCategory` wraps its cause as `%w` does. -/
inductive Err where
  /-- Message "failed to read directory %s" and "failed to read templates directory". -/
  | readDir
  /-- Message "maximum directory depth (%d) exceeded at %s", with the offending path
  given by its components below the category. -/
  | depthExceeded (rel : List String)
  /-- Message "error loading template %s: %w". -/
  | loadTemplate (name : String)
  /-- Message "template id '%s' and directory name '%s' should match". -/
  | idMismatch (id : String) (name : String)
  /-- Message "duplicate template id '%s' found (already loaded: %s)". -/
  | duplicateID (id : String) (existingName : String)
  /-- Message "error scanning category %s: %w". -/
  | scanCategory (categoryName : String) (cause : Err)
  /-- Message "template %q missing docker-compose provider configuration". -/
  | missingProvider (templateID : String)
  /-- Message "template %q docker-compose.path is empty". -/
  | emptyPath (templateID : String)
  /-- Message "template %q has invalid docker-compose path %q: %w". -/
  | invalidPath (templateID : String) (composePath : String)
  /-- Message "docker-compose file for template %q not found". -/
  | notFound (templateID : String)
  deriving DecidableEq, Repr

/-! ## File system -/

/-- A file-system object. -/
inductive Node where
  /-- A regular file; `descriptor` is the record the YAML descriptor parser
  yields for its content, `none` when the content does not parse. -/
  | file (descriptor : Option Template)
  /-- A symbolic link; `target` is the object it points to, `none` when the
  link dangles or loops. -/
  | symlink (target : Option Node)
  /-- A directory with its entries in `os.ReadDir` order. -/
  | dir (entries : List (String × Node))

/-- Go `DirEntry.IsDir()`: true for a real directory only (the entry type comes
from `lstat`, so a link to a directory is not a directory). -/
def Node.isDir : Node → Bool
  | .dir _ => true
  | _ => false

/-- Go `d.Type()&os.ModeSymlink != 0`. -/
def Node.isSymlink : Node → Bool
  | .symlink _ => true
  | _ => false

/-- Follow symbolic links until a file or directory is reached. -/
def Node.resolve : Node → Option Node
  | .symlink none => none
  | .symlink (some t) => t.resolve
  | n => some n

/-- Entry lookup by name in a directory listing. -/
def lookupEntry (name : String) : List (String × Node) → Option Node
  | [] => none
  | (n, c) :: rest => if n = name then some c else lookupEntry name rest

/-- The object `os.Stat(d/name)` reports on: `d` is followed if it is a
link, the entry is looked up, and the entry is followed in turn. -/
def Node.statChild (d : Node) (name : String) : Option Node :=
  match d.resolve with
  | some (.dir entries) => (lookupEntry name entries).bind Node.resolve
  | _ => none

/-- Go `os.ReadDir(path)` for the node `path` denotes. -/
def readDir (d : Node) : Option (List (String × Node)) :=
  match d.resolve with
  | some (.dir entries) => some entries
  | _ => none

/-- Go `strings.HasPrefix(s, p)`. -/
def hasPrefix (s p : String) : Bool := p.data.isPrefixOf s.data

/-- Go `isTemplateDirectory(dirPath)`: `os.Stat(dirPath/index.yaml)` succeeds. -/
def isTemplateDirectory (dir : Node) : Bool :=
  (dir.statChild "index.yaml").isSome

/-- Modelled from the spec: `LoadTemplate` (the descriptor parser) is not in
the sources at hand.  Per section 4.1 it parses the single file `index.yaml`
of the directory into a Template record and fails when the file is absent,
malformed or of the wrong shape; it does not compare the ID with the
directory name. -/
def LoadTemplate (dir : Node) : Option Template :=
  match dir.statChild "index.yaml" with
  | some (.file (some tmpl)) => some tmpl
  | _ => none

/-! ## `filepath.WalkDir` -/

/-- What a `fs.WalkDirFunc` returns: `nil`, `filepath.SkipDir`,
`filepath.SkipAll` or a genuine error. -/
inductive Signal where
  | nil
  | skipDir
  | skipAll
  | err (e : Err)
  deriving DecidableEq, Repr

/-- A `fs.WalkDirFunc` whose captured variables have type `σ`.  The `err`
argument of the Go callback is always `nil` in the model. -/
abbrev WalkDirFunc (σ : Type) := List String → String → Node → σ → Signal × σ

mutual
/-- The recursive worker `walkDir` of `path/filepath`: call the function on
the entry; stop there unless it returned `nil` on a directory (a `SkipDir`
answered on a directory is consumed, on anything else it is passed up); then
walk the entries in order. -/
def walkDir {σ : Type} (fn : WalkDirFunc σ) (rel : List String) (name : String)
    (d : Node) (s : σ) : Signal × σ :=
  match d with
  | .dir entries =>
    let r := fn rel name (.dir entries) s
    match r.1 with
    | .nil => walkEntries fn rel entries r.2
    | .skipDir => (.nil, r.2)
    | sig => (sig, r.2)
  | .file t => fn rel name (.file t) s
  | .symlink t => fn rel name (.symlink t) s
/-- The loop `for _, d1 := range dirs` of `walkDir`: a `SkipDir` coming back
from an entry ends the loop (the rest of the directory is skipped), any other
non-nil value is returned. -/
def walkEntries {σ : Type} (fn : WalkDirFunc σ) (rel : List String)
    (dirs : List (String × Node)) (s : σ) : Signal × σ :=
  match dirs with
  | [] => (.nil, s)
  | (name1, d1) :: rest =>
    let r := walkDir fn (rel ++ [name1]) name1 d1 s
    match r.1 with
    | .nil => walkEntries fn rel rest r.2
    | .skipDir => (.nil, r.2)
    | sig => (sig, r.2)
end

/-- Go `filepath.WalkDir(root, fn)`: `SkipDir` and `SkipAll` reaching the top
mean success. -/
def WalkDir {σ : Type} (fn : WalkDirFunc σ) (rootName : String) (root : Node) (s : σ) :
    Option Err × σ :=
  let r := walkDir fn [] rootName root s
  match r.1 with
  | .err e => (some e, r.2)
  | _ => (none, r.2)

/-! ## Discovery -/

/-- The ceiling `maxScanDepth`. -/
def maxScanDepth : Nat := 10

/-- The function literal passed to `filepath.WalkDir` by
`loadTemplatesFromCategory`; the captured variable is `templates`. -/
def loadTemplatesFromCategoryFn : WalkDirFunc TemplateMap :=
  fun rel name d templates =>
    if rel = [] then (.nil, templates)
    else if hasPrefix name "." then
      (if d.isDir then (.skipDir, templates) else (.nil, templates))
    else if d.isSymlink then (.skipDir, templates)
    else if !d.isDir then (.nil, templates)
    else
      let depth := (rel.length - 1) + 1
      if depth > maxScanDepth then (.err (.depthExceeded rel), templates)
      else if isTemplateDirectory d then
        match LoadTemplate d with
        | none => (.err (.loadTemplate name), templates)
        | some tmpl =>
          if tmpl.ID ≠ name then (.err (.idMismatch tmpl.ID name), templates)
          else
            match mapGet templates tmpl.ID with
            | some existing => (.err (.duplicateID tmpl.ID existing.Info.Name), templates)
            | none => (.skipDir, mapSet templates tmpl.ID tmpl)
      else (.nil, templates)

/-- Go `loadTemplatesFromCategory(categoryPath, categoryName)`, with
`category` the node `categoryPath` denotes. -/
def loadTemplatesFromCategory (category : Node) (categoryName : String) :
    Except Err TemplateMap :=
  let r := WalkDir loadTemplatesFromCategoryFn categoryName category []
  match r.1 with
  | some e => .error (.scanCategory categoryName e)
  | none => .ok r.2

/-- The merge loop `for id, tmpl := range categoryTemplates`. -/
def mergeTemplates (templates categoryTemplates : TemplateMap) : TemplateMap :=
  categoryTemplates.foldl (fun acc e => mapSet acc e.1 e.2) templates

/-- The loop `for _, categoryEntry := range dirEntry` of
`loadTemplatesFromDirectory`. -/
def loadCategories : List (String × Node) → TemplateMap → Except Err TemplateMap
  | [], templates => .ok templates
  | (name, categoryEntry) :: rest, templates =>
    if hasPrefix name "." || !categoryEntry.isDir then loadCategories rest templates
    else
      match loadTemplatesFromCategory categoryEntry name with
      | .error e => .error e
      | .ok categoryTemplates => loadCategories rest (mergeTemplates templates categoryTemplates)

/-- Go `loadTemplatesFromDirectory(repoPath)` (the spec's Discover), with `repo`
the node `repoPath` denotes. -/
def loadTemplatesFromDirectory (repo : Node) : Except Err TemplateMap :=
  match readDir repo with
  | none => .error .readDir
  | some dirEntry => loadCategories dirEntry []

/-! ## Observing a walk

The walk function is wrapped so that every invocation is recorded together
with the captured state it found; the walker itself is unchanged. -/

/-- One invocation of a walk function: the entry it was called on and the
captured state at that moment. -/
structure Visit (σ : Type) where
  rel : List String
  name : String
  node : Node
  pre : σ

/-- What the walk function answers at a recorded invocation. -/
def Visit.result {σ : Type} (fn : WalkDirFunc σ) (v : Visit σ) : Signal × σ :=
  fn v.rel v.name v.node v.pre

/-- The walk function `fn`, additionally appending each invocation to a log. -/
def traced {σ : Type} (fn : WalkDirFunc σ) : WalkDirFunc (σ × List (Visit σ)) :=
  fun rel name d st =>
    let r := fn rel name d st.1
    (r.1, (r.2, st.2 ++ [⟨rel, name, d, st.1⟩]))

/-- The entries the walk of `loadTemplatesFromCategory` reaches, in order. -/
def categoryVisits (category : Node) (categoryName : String) : List (Visit TemplateMap) :=
  (WalkDir (traced loadTemplatesFromCategoryFn) categoryName category ([], [])).2.2

/-- The entries reached by the category loop of `loadTemplatesFromDirectory`,
each tagged with its category: the walks of the categories in order, up to
and including the first one that fails. -/
def visitsOfCategories : List (String × Node) → List (String × Visit TemplateMap)
  | [] => []
  | (name, categoryEntry) :: rest =>
    if hasPrefix name "." || !categoryEntry.isDir then visitsOfCategories rest
    else
      match loadTemplatesFromCategory categoryEntry name with
      | .error _ => (categoryVisits categoryEntry name).map (fun v => (name, v))
      | .ok _ => (categoryVisits categoryEntry name).map (fun v => (name, v))
          ++ visitsOfCategories rest

/-- The entries reached by `loadTemplatesFromDirectory`. -/
def discoverVisits (repo : Node) : List (String × Visit TemplateMap) :=
  match readDir repo with
  | none => []
  | some dirEntry => visitsOfCategories dirEntry

/-- A visit at which the walk gets as far as parsing the descriptor: the
entry is below the category root, not hidden, a real directory no deeper than
the ceiling, and contains `index.yaml`. -/
def Visit.parsesDescriptor {σ : Type} (v : Visit σ) : Bool :=
  v.rel ≠ [] && !hasPrefix v.name "." && v.node.isDir && v.rel.length ≤ maxScanDepth
    && isTemplateDirectory v.node

/-- A visit of a directory that the walk does not skip: below the category
root, not hidden, a real directory. -/
def Visit.entersDirectory {σ : Type} (v : Visit σ) : Bool :=
  v.rel ≠ [] && !hasPrefix v.name "." && v.node.isDir

/-- A linear reading of a log: the invocations `vs` happened one after the
other starting from state `s`, each finding the state its predecessor left,
none but the last answering with an error; `s'` is the state after the last
one and `sig` the value of the walk, an error exactly when the last
invocation answered with that error. -/
def LinTrace {σ : Type} (fn : WalkDirFunc σ) : σ → List (Visit σ) → σ → Signal → Prop
  | s, [], s', sig => s' = s ∧ ∀ e, sig ≠ .err e
  | s, [v], s', sig =>
    v.pre = s ∧ s' = (v.result fn).2 ∧ ∀ e, (v.result fn).1 = .err e ↔ sig = .err e
  | s, v :: w :: vs, s', sig =>
    v.pre = s ∧ (∀ e, (v.result fn).1 ≠ .err e) ∧ LinTrace fn (v.result fn).2 (w :: vs) s' sig

/-! ## Paths through real directories -/

/-- The relation `EntryAt root path d`: descending from `root` along the names of `path`,
entering real directories only (never a link), one arrives at the entry
`d`. -/
inductive EntryAt : Node → List String → Node → Prop where
  | here (d : Node) : EntryAt d [] d
  | step {entries : List (String × Node)} {name : String} {child : Node}
      {rest : List String} {d : Node} :
      (name, child) ∈ entries → EntryAt child rest d →
      EntryAt (.dir entries) (name :: rest) d

/-- The relation `Descent A rel name d p d'`: like `EntryAt d p d'`, and in
addition every directory the path leaves behind, from `d` (named `name`, at
`rel`) down to the parent of `d'`, satisfies `A` together with its own path
and name. -/
inductive Descent (A : List String → String → Node → Prop) :
    List String → String → Node → List String → Node → Prop where
  | here (rel : List String) (name : String) (d : Node) : Descent A rel name d [] d
  | step {rel : List String} {name : String} {entries : List (String × Node)} {n : String}
      {child : Node} {p : List String} {d : Node} :
      A rel name (.dir entries) → (n, child) ∈ entries →
      Descent A (rel ++ [n]) n child p d → Descent A rel name (.dir entries) (n :: p) d

/-- Where a recorded invocation lies relative to the entry `d` (named
`name`, at `rel`) whose walk produced it: at a path `p` below `d` through
real directories all of which satisfy `A`, and called with the last name of
that path. -/
def VisitCtx {σ : Type} (A : List String → String → Node → Prop) (rel : List String)
    (name : String) (d : Node) (v : Visit σ) : Prop :=
  ∃ p, v.rel = rel ++ p ∧ Descent A rel name d p v.node ∧ v.name = p.getLastD name

/-- The directories below which the walk of `loadTemplatesFromCategory`
descends: the walk root, and any directory that is not hidden, not a template
directory and within the depth ceiling. -/
def loadDescends : List String → String → Node → Prop :=
  fun rel name d =>
    rel = [] ∨ (hasPrefix name "." = false ∧ isTemplateDirectory d = false ∧
      rel.length ≤ maxScanDepth)

/-- A file name as a file system can hold it: non-empty, without separator,
and neither of the two reserved names. -/
def validName (name : String) : Bool :=
  name ≠ "" && !name.data.contains '/' && name ≠ "." && name ≠ ".."

mutual
/-- Every entry name in the tree of real directories below is a valid file
name. -/
def Node.namesValid : Node → Bool
  | .dir entries => entriesNamesValid entries
  | _ => true
/-- The same for a directory listing. -/
def entriesNamesValid : List (String × Node) → Bool
  | [] => true
  | (name, d) :: rest => validName name && d.namesValid && entriesNamesValid rest
end

mutual
/-- Length of the longest chain of nested real directories starting with
this one (0 for anything that is not a real directory). -/
def Node.dirHeight : Node → Nat
  | .dir entries => entriesDirHeight entries + 1
  | _ => 0
/-- The largest `dirHeight` among the entries of a listing: the depth of the
deepest real directory below the directory so listed. -/
def entriesDirHeight : List (String × Node) → Nat
  | [] => 0
  | (_, d) :: rest => max d.dirHeight (entriesDirHeight rest)
end

/-- The depth, relative to a category, of its deepest real directory. -/
def categoryDepth : Node → Nat
  | .dir entries => entriesDirHeight entries
  | _ => 0

mutual
/-- Empty every template directory at or below this entry of everything but
its `index.yaml`. -/
def Node.emptyTemplateDirs : Node → Node
  | .dir entries =>
    if isTemplateDirectory (.dir entries) then
      .dir (entries.filter (fun e => decide (e.1 = "index.yaml")))
    else .dir (entriesEmptyTemplateDirs entries)
  | .file t => .file t
  | .symlink t => .symlink t
/-- The same for every entry of a listing. -/
def entriesEmptyTemplateDirs : List (String × Node) → List (String × Node)
  | [] => []
  | (name, d) :: rest => (name, d.emptyTemplateDirs) :: entriesEmptyTemplateDirs rest
end

/-- The corpus with every template directory (a directory strictly below a
category that contains `index.yaml`) emptied of everything but its
`index.yaml`. -/
def emptyTemplateDirsOfCorpus (dirEntry : List (String × Node)) : List (String × Node) :=
  dirEntry.map (fun e =>
    (e.1, match e.2 with
          | .dir entries => .dir (entriesEmptyTemplateDirs entries)
          | n => n))

/-- The visit `v` is one at which the walk function of
`loadTemplatesFromCategory` loads the template `tmpl`: the entry lies below
the category root, is a real and non-hidden directory within the depth
ceiling, its descriptor parses to `tmpl`, whose ID is the entry name, and the
walk function answers by storing `tmpl` under that ID. -/
def Visit.stores (v : Visit TemplateMap) (tmpl : Template) : Prop :=
  v.rel ≠ [] ∧ hasPrefix v.name "." = false ∧ v.node.isDir = true ∧
    v.rel.length ≤ maxScanDepth ∧ LoadTemplate v.node = some tmpl ∧ tmpl.ID = v.name ∧
    v.result loadTemplatesFromCategoryFn = (.skipDir, mapSet v.pre tmpl.ID tmpl)

/-! ## Sample corpora -/

/-- A descriptor with the given ID and docker-compose path. -/
def sampleTemplate (id : String) (composePath : String) : Template :=
  { ID := id
    Info := ⟨id, "", "", [], "", [], "", "", ⟨"", ""⟩, [], []⟩
    ProofOfConcept := []
    Remediation := []
    Providers := [("docker-compose", ⟨composePath⟩)]
    PostInstall := [] }

/-- A template directory: a compose file and a descriptor with the given ID. -/
def templateDir (id : String) : Node :=
  .dir [("docker-compose.yml", .file none),
        ("index.yaml", .file (some (sampleTemplate id "docker-compose.yml")))]

/-- The corpus `db/weak-auth`, `web/sqli-basic` of the end-to-end example. -/
def corpusWebDb : Node :=
  .dir [("db", .dir [("weak-auth", templateDir "weak-auth")]),
        ("web", .dir [("sqli-basic", templateDir "sqli-basic")])]

/-- The contents `web/sqli-basic`, `db/weak-auth` of `corpusWebDb` as read by
`os.ReadDir`. -/
def corpusWebDbEntries : List (String × Node) :=
  [("db", .dir [("weak-auth", templateDir "weak-auth")]),
   ("web", .dir [("sqli-basic", templateDir "sqli-basic")])]

/-- A descriptor with the given ID and display name. -/
def namedTemplate (id : String) (displayName : String) : Template :=
  { ID := id
    Info := ⟨displayName, "", "", [], "", [], "", "", ⟨"", ""⟩, [], []⟩
    ProofOfConcept := []
    Remediation := []
    Providers := [("docker-compose", ⟨"docker-compose.yml"⟩)]
    PostInstall := [] }

/-- A template directory holding the descriptor `tmpl`. -/
def templateDirOf (tmpl : Template) : Node :=
  .dir [("docker-compose.yml", .file none), ("index.yaml", .file (some tmpl))]

/-- The corpus `api/sqli-basic`, `web/sqli-basic`: the same ID in two
categories, with different display names. -/
def corpusSameIdTwoCategories : Node :=
  .dir [("api", .dir [("sqli-basic", templateDirOf (namedTemplate "sqli-basic" "API SQLi"))]),
        ("web", .dir [("sqli-basic", templateDirOf (namedTemplate "sqli-basic" "Web SQLi"))])]

/-- The category `web` with `web/a/dup` and `web/b/dup`: the same base name
under two sub-paths. -/
def categorySameIdTwoSubpaths : Node :=
  .dir [("a", .dir [("dup", templateDirOf (namedTemplate "dup" "first"))]),
        ("b", .dir [("dup", templateDirOf (namedTemplate "dup" "second"))])]

/-- The corpus `web/good`, `web/wrong` where the descriptor of `wrong`
carries the ID `other`. -/
def corpusIdMismatch : Node :=
  .dir [("web", .dir [("good", templateDir "good"), ("wrong", templateDir "other")])]

/-- The entry `underDirs [a, b, c] e` is the entry `a` holding just `b` holding just `c`
holding just the entry `e`. -/
def underDirs : List String → String × Node → String × Node
  | [], e => e
  | a :: rest, e => (a, .dir [underDirs rest e])

/-- The corpus whose only template directory `tpl` lies at depth 10 below the
category `web`. -/
def corpusDepth10 : Node :=
  .dir [underDirs ["web", "d1", "d2", "d3", "d4", "d5", "d6", "d7", "d8", "d9"]
    ("tpl", templateDir "tpl")]

/-- The corpus whose only template directory `tpl` lies at depth 11 below the
category `web`. -/
def corpusDepth11 : Node :=
  .dir [underDirs ["web", "d1", "d2", "d3", "d4", "d5", "d6", "d7", "d8", "d9", "d10"]
    ("tpl", templateDir "tpl")]

/-- The `Err` values that report an exceeded depth, wrapped or not. -/
def Err.isDepthExceeded : Err → Bool
  | .depthExceeded _ => true
  | .scanCategory _ cause => cause.isDepthExceeded
  | _ => false

/-- What discovery returns on `corpusWebDb`. -/
def corpusWebDbResult : TemplateMap :=
  [("sqli-basic", sampleTemplate "sqli-basic" "docker-compose.yml"),
   ("weak-auth", sampleTemplate "weak-auth" "docker-compose.yml")]

/-- The relation `VisitedBefore l a b`: in the log `l`, `a` is recorded and `b` is recorded
somewhere after it. -/
def VisitedBefore {α : Type} (l : List α) (a b : α) : Prop :=
  ∃ l1 l2, l = l1 ++ a :: l2 ∧ b ∈ l2

/-- The moment the walk of `corpusIdMismatch` reaches `web/wrong`: `good` has
been loaded. -/
def visitWrong : Visit TemplateMap :=
  ⟨["wrong"], "wrong", templateDir "other", [("good", sampleTemplate "good" "docker-compose.yml")]⟩

/-- The moment the walk of `categorySameIdTwoSubpaths` reaches `a/dup`. -/
def visitFirstDup : Visit TemplateMap :=
  ⟨["a", "dup"], "dup", templateDirOf (namedTemplate "dup" "first"), []⟩

/-- The moment the walk of `categorySameIdTwoSubpaths` reaches `b/dup`. -/
def visitSecondDup : Visit TemplateMap :=
  ⟨["b", "dup"], "dup", templateDirOf (namedTemplate "dup" "second"),
    [("dup", namedTemplate "dup" "first")]⟩

/-- The moment the walk of `corpusDepth11` reaches `tpl`, at depth 11. -/
def visitDepth11 : Visit TemplateMap :=
  ⟨["d1", "d2", "d3", "d4", "d5", "d6", "d7", "d8", "d9", "d10", "tpl"], "tpl",
    templateDir "tpl", []⟩

/-- The corpus `web/a`, `web/z-link` where `z-link` is a symbolic link to a
valid template directory whose descriptor even carries the ID `z-link`. -/
def corpusSymlinkLast : Node :=
  .dir [("web", .dir [("a", templateDir "a"),
                      ("z-link", .symlink (some (templateDir "z-link")))])]

/-- The contents of `corpusSymlinkLast`. -/
def corpusSymlinkLastEntries : List (String × Node) :=
  [("web", .dir [("a", templateDir "a"),
                 ("z-link", .symlink (some (templateDir "z-link")))])]

/-- The corpus `web/a-link`, `web/b` where `a-link` is a symbolic link to a
directory and `b` is an ordinary template directory sorted after it. -/
def corpusSymlinkFirst : Node :=
  .dir [("web", .dir [("a-link", .symlink (some (.dir []))),
                      ("b", templateDir "b")])]

/-- The corpus `corpusSymlinkFirst` without the link. -/
def corpusWithoutSymlink : Node :=
  .dir [("web", .dir [("b", templateDir "b")])]

/-- The contents of a corpus with `web/outer` a template directory that
holds, besides its descriptor, a directory `inner` with a descriptor of its
own whose ID (`elsewhere`) does not match. -/
def corpusNestedTemplateEntries : List (String × Node) :=
  [("web", .dir [("outer", .dir [("index.yaml", .file (some (sampleTemplate "outer" "c.yml"))),
                                 ("inner", templateDir "elsewhere")])])]

/-- The contents of a corpus with hidden entries at both levels: a hidden
top-level directory holding a template directory, and under `web` a hidden
template directory, a hidden link and a hidden file before the template
directory `a`. -/
def corpusHiddenEntries : List (String × Node) :=
  [(".git", .dir [("hooks", templateDir "hooks")]),
   ("web", .dir [(".cache", templateDir ".cache"),
                 (".link", .symlink (some (templateDir ".link"))),
                 (".notes", .file none),
                 ("a", templateDir "a")])]

/-! ## Paths as strings (`path/filepath` on Unix) -/

/-- The pieces of a character sequence between separators `/`. -/
def splitSep : List Char → List (List Char)
  | [] => [[]]
  | c :: cs =>
    if c = '/' then [] :: splitSep cs
    else
      match splitSep cs with
      | [] => [[c]]
      | h :: t => (c :: h) :: t

/-- The elements of a path: `strings.Split(path, "/")`. -/
def pathElems (path : String) : List String :=
  (splitSep path.data).map String.mk

/-- One step of the lexical processing of `filepath.Clean`, on the stack of
elements kept so far (innermost first): empty elements and `.` are dropped,
`..` removes the element before it, is dropped at the root of a rooted path,
and is kept at the start of a path that is not rooted. -/
def cleanStep (rooted : Bool) (stack : List String) (elem : String) : List String :=
  if elem = "" ∨ elem = "." then stack
  else if elem = ".." then
    match stack with
    | top :: rest => if top = ".." then ".." :: stack else rest
    | [] => if rooted then [] else [".."]
  else elem :: stack

/-- The elements of the cleaned path, outermost first. -/
def cleanElems (rooted : Bool) (elems : List String) : List String :=
  (elems.foldl (cleanStep rooted) []).reverse

/-- Go `strings.Join(elems, "/")`. -/
def joinSep : List String → String
  | [] => ""
  | [e] => e
  | e :: rest => e ++ "/" ++ joinSep rest

/-- Go `filepath.IsAbs(path)`. -/
def filepathIsAbs (path : String) : Bool := hasPrefix path "/"

/-- Go `filepath.Clean(path)`: the shortest path name equivalent to `path` by
purely lexical processing; the empty path becomes `.`. -/
def filepathClean (path : String) : String :=
  if path = "" then "."
  else
    let out := cleanElems (filepathIsAbs path) (pathElems path)
    if filepathIsAbs path then "/" ++ joinSep out
    else if out = [] then "." else joinSep out

/-- Go `filepath.Join(elem...)`: empty elements before the first non-empty one
are ignored, the rest is joined with separators and cleaned; the result is
empty when all elements are. -/
def filepathJoin (elem : List String) : String :=
  match elem.dropWhile (fun e => decide (e = "")) with
  | [] => ""
  | es => filepathClean (joinSep es)

/-- Go `filepath.Dir(path)`: everything up to and including the last separator,
cleaned. -/
def filepathDir (path : String) : String :=
  filepathClean (String.mk (path.data.reverse.dropWhile (fun c => decide (c ≠ '/'))).reverse)

/-- Descend from `d` along `elems`, following symbolic links on the way and
at the end. -/
def statFrom (d : Node) : List String → Option Node
  | [] => d.resolve
  | e :: rest =>
    match d.resolve with
    | some (.dir entries) =>
      match lookupEntry e entries with
      | some child => statFrom child rest
      | none => none
    | _ => none

/-- Go `os.Stat(path)` on the disk whose root directory is `disk`: the object
the path leads to, `none` when there is none.  The empty path names nothing;
a path that is not rooted is taken from the root directory. -/
def statPath (disk : Node) (path : String) : Option Node :=
  if path = "" then none
  else statFrom disk (cleanElems true (pathElems path))

/-- Go `isTemplateDirectory(dirPath)` for a path given as a string. -/
def isTemplateDirectoryAt (disk : Node) (dirPath : String) : Bool :=
  (statPath disk (filepathJoin [dirPath, "index.yaml"])).isSome

/-- Modelled from the spec: `LoadTemplate` for a path given as a string (see
`LoadTemplate`). -/
def LoadTemplateAt (disk : Node) (dirPath : String) : Option Template :=
  match statPath disk (filepathJoin [dirPath, "index.yaml"]) with
  | some (.file (some tmpl)) => some tmpl
  | _ => none

/-! ## Resolution of the docker-compose path -/

/-- The path `filepath.WalkDir` hands to the walk function for the entry at
`rel` below `root`: `root` itself, then `filepath.Join(path, name)` level by
level. -/
def walkPath (root : String) (rel : List String) : String :=
  rel.foldl (fun path name => filepathJoin [path, name]) root

/-- The function literal passed to `filepath.WalkDir` by
`findTemplateInCategory`; the captured variable is `foundPath`. -/
def findTemplateInCategoryFn (categoryPath templateID : String) : WalkDirFunc String :=
  fun rel name d foundPath =>
    if rel ≠ [] ∧ (rel.length - 1) + 1 > maxScanDepth then
      (.err (.depthExceeded rel), foundPath)
    else if hasPrefix name "." then
      (if d.isDir then (.skipDir, foundPath) else (.nil, foundPath))
    else if d.isSymlink then (.skipDir, foundPath)
    else if !d.isDir then (.nil, foundPath)
    else if isTemplateDirectory d then
      (if name = templateID then (.skipAll, walkPath categoryPath rel)
       else (.skipDir, foundPath))
    else (.nil, foundPath)

/-- Go `findTemplateInCategory(categoryPath, templateID)`, with `category` the
directory entry `categoryPath` denotes and `categoryName` its name. -/
def findTemplateInCategory (categoryPath : String) (category : Node) (categoryName : String)
    (templateID : String) : Except Err String :=
  let r := WalkDir (findTemplateInCategoryFn categoryPath templateID) categoryName category ""
  match r.1 with
  | some e => .error e
  | none => .ok r.2

/-- The end of the loop body of `GetDockerComposePath`, once the template
has been located and loaded: from the provider configuration to the result. -/
def composePathOf (disk : Node) (templateID templateDir : String) (tmpl : Template) :
    Except Err (String × String) :=
  match mapGet tmpl.Providers "docker-compose" with
  | none => .error (.missingProvider templateID)
  | some providerConfig =>
    if providerConfig.Path = "" then .error (.emptyPath templateID)
    else if filepathIsAbs providerConfig.Path then
      .ok (providerConfig.Path, filepathDir providerConfig.Path)
    else
      let composePath := filepathJoin [templateDir, providerConfig.Path]
      if (statPath disk composePath).isNone then .error (.invalidPath templateID composePath)
      else .ok (composePath, filepathDir composePath)

/-- Where the loop body of `GetDockerComposePath` looks for the template in
one category: the direct child `<category>/<templateID>` if it is a template
directory, else what `findTemplateInCategory` finds; `none` stands for
`continue`. -/
def locateTemplateDir (disk : Node) (templateID repoPath : String) (name : String)
    (entry : Node) : Option String :=
  let templateDir := filepathJoin [repoPath, name, templateID]
  if isTemplateDirectoryAt disk templateDir then some templateDir
  else
    let categoryPath := filepathJoin [repoPath, name]
    match findTemplateInCategory categoryPath entry name templateID with
    | .error _ => none
    | .ok found => if found ≠ "" then some found else none

/-- The loop `for _, entry := range dirEntries` of `GetDockerComposePath`. -/
def composePathLoop (disk : Node) (templateID repoPath : String) :
    List (String × Node) → Except Err (String × String)
  | [] => .error (.notFound templateID)
  | (name, entry) :: rest =>
    if hasPrefix name "." || !entry.isDir then composePathLoop disk templateID repoPath rest
    else
      match locateTemplateDir disk templateID repoPath name entry with
      | none => composePathLoop disk templateID repoPath rest
      | some templateDir =>
        match LoadTemplateAt disk templateDir with
        | none => composePathLoop disk templateID repoPath rest
        | some tmpl =>
          if tmpl.ID ≠ templateID then composePathLoop disk templateID repoPath rest
          else composePathOf disk templateID templateDir tmpl

/-- Go `GetDockerComposePath(templateID, repoPath)` (the spec's
ResolveConfigPath for the provider `docker-compose`) on the disk whose root
directory is `disk`; the result is `(composePath, workingDir)`. -/
def GetDockerComposePath (disk : Node) (templateID repoPath : String) :
    Except Err (String × String) :=
  match statPath disk repoPath with
  | some (.dir dirEntries) => composePathLoop disk templateID repoPath dirEntries
  | _ => .error .readDir

/-- A disk with the repository `/repo` whose category `web` holds three
template directories: `abs`, whose docker-compose path is absolute and names
no existing file; `ok`, whose relative path names its compose file; and
`rel`, whose relative path names no existing file. -/
def diskComposePaths : Node :=
  .dir [("repo", .dir [("web", .dir [
    ("abs", .dir [("index.yaml",
      .file (some (sampleTemplate "abs" "/nonexistent/docker-compose.yml")))]),
    ("ok", templateDir "ok"),
    ("rel", .dir [("index.yaml", .file (some (sampleTemplate "rel" "missing.yml")))])])])]

/-- The body of the loop of `GetDockerComposePath` for one directory entry:
`none` stands for `continue`, `some r` for `return r`. -/
def composePathInCategory (disk : Node) (templateID repoPath : String) (name : String)
    (entry : Node) : Option (Except Err (String × String)) :=
  if hasPrefix name "." || !entry.isDir then none
  else
    match locateTemplateDir disk templateID repoPath name entry with
    | none => none
    | some templateDir =>
      match LoadTemplateAt disk templateDir with
      | none => none
      | some tmpl =>
        if tmpl.ID ≠ templateID then none
        else some (composePathOf disk templateID templateDir tmpl)

/-- Go `GetByID(templates, templateID)`; the error is the message
"template %s not found" with its argument. -/
def GetByID (templates : TemplateMap) (templateID : String) : Except String Template :=
  match mapGet templates templateID with
  | none => .error ("template " ++ templateID ++ " not found")
  | some tmpl =>
    if tmpl.ID = "" then .error ("template " ++ templateID ++ " not found")
    else .ok tmpl

/-- A descriptor with the given ID and no provider at all. -/
def templateWithoutProvider (id : String) : Template :=
  { ID := id
    Info := ⟨id, "", "", [], "", [], "", "", ⟨"", ""⟩, [], []⟩
    ProofOfConcept := []
    Remediation := []
    Providers := []
    PostInstall := [] }

/-- The contents of a repository with three categories: `db` without the
template `np`; `web`, whose template `np` configures no provider; and `zz`,
whose template `np` configures docker-compose. -/
def repoMissingProviderEntries : List (String × Node) :=
  [("db", .dir [("other", templateDir "other")]),
   ("web", .dir [("np", templateDirOf (templateWithoutProvider "np"))]),
   ("zz", .dir [("np", templateDir "np")])]

/-- The disk holding that repository at `/repo`. -/
def diskMissingProvider : Node :=
  .dir [("repo", .dir repoMissingProviderEntries)]

/-- The repository whose category `web` holds `t`, a symbolic link to a
valid template directory with the ID `t`, and nothing else. -/
def repoSymlinkedTemplate : Node :=
  .dir [("web", .dir [("t", .symlink (some (templateDir "t")))])]

/-- The disk holding that repository at `/repo`. -/
def diskSymlinkedTemplate : Node :=
  .dir [("repo", repoSymlinkedTemplate)]

/-- The repository whose category `web` holds a regular file at depth 11
(`a1/.../a10/notes.txt`) and the template directory `sub/t`. -/
def repoDeepFile : Node :=
  .dir [("web", .dir [
    (underDirs ["a1", "a2", "a3", "a4", "a5", "a6", "a7", "a8", "a9", "a10"]
      ("notes.txt", .file none)),
    ("sub", .dir [("t", templateDir "t")])])]

/-- The disk holding that repository at `/repo`. -/
def diskDeepFile : Node :=
  .dir [("repo", repoDeepFile)]

/-- The repository whose category `web` holds a hidden file at depth 11
(`a1/.../a10/.keep`) and the template directory `sub/t`. -/
def repoDeepHidden : Node :=
  .dir [("web", .dir [
    (underDirs ["a1", "a2", "a3", "a4", "a5", "a6", "a7", "a8", "a9", "a10"]
      (".keep", .file none)),
    ("sub", .dir [("t", templateDir "t")])])]

/-- The disk holding that repository at `/repo`. -/
def diskDeepHidden : Node :=
  .dir [("repo", repoDeepHidden)]

/-- The repository whose category `web` itself contains an `index.yaml`
besides the template directory `sub/t`. -/
def repoCategoryWithIndex : Node :=
  .dir [("web", .dir [("index.yaml", .file (some (sampleTemplate "web" "docker-compose.yml"))),
                      ("sub", .dir [("t", templateDir "t")])])]

/-- The disk holding that repository at `/repo`. -/
def diskCategoryWithIndex : Node :=
  .dir [("repo", repoCategoryWithIndex)]

/-! ## The docker-compose provider (`pkg/provider/dockercompose/utils.go`)

The compose library and the container engine are outside the repository.
What they return is taken as given: the project the loader produces, the
error each backend phase answers with, the listing `Ps` returns. -/

/-- A build specification of a service (`types.BuildConfig`); the provider
only looks at whether a service has one. -/
structure BuildConfig where
  Context : String
  deriving DecidableEq, Repr

/-- A service of a compose project (`types.ServiceConfig`), with the fields
the provider reads or writes: `Build` is a pointer that may be nil, `Labels`
a map that may be nil. -/
structure ServiceConfig where
  Image : String
  Build : Option BuildConfig
  Labels : Option (List (String × String))
  deriving DecidableEq, Repr

/-- A compose project (`types.Project`): its name and the map of its
services. -/
structure Project where
  Name : String
  Services : List (String × ServiceConfig)
  deriving DecidableEq, Repr

/-- The names of the services of a project (`project.ServiceNames()`). -/
def Project.ServiceNames (project : Project) : List String :=
  project.Services.map Prod.fst

/-- A call to the compose backend, with the arguments the provider chooses. -/
inductive Call where
  /-- Call `composeService.Build` with `BuildOptions{Services: services}`. -/
  | build (services : List String)
  /-- Call `composeService.Pull`. -/
  | pull
  /-- Call `composeService.Create` for the given services, removing orphans and
  forcing recreation. -/
  | create (services : List String)
  /-- Call `composeService.Start` on the named project for the given services. -/
  | start (projectName : String) (services : List String)
  /-- Call `composeService.Down` on the named project, removing orphans and
  volumes. -/
  | down (projectName : String)
  deriving DecidableEq, Repr

/-- A backend: the error, if any, that a call answers with when it is made
after the calls `done`. -/
abbrev Backend := List Call → Call → Option String

/-- The loop of `runComposeUp` that collects the names of the services with a
build specification. -/
def servicesToBuild (project : Project) : List String :=
  (project.Services.filter (fun e => e.2.Build.isSome)).map Prod.fst

/-- Go `runComposeUp(dockerCli, project)`: the calls made to the backend, in
order, and the returned error (`none` for nil). -/
def runComposeUp (backend : Backend) (project : Project) : List Call × Option String :=
  let toBuild := servicesToBuild project
  let built : List Call × Option String :=
    if toBuild.length > 0 then ([.build toBuild], backend [] (.build toBuild))
    else ([], none)
  match built.2 with
  | some err => (built.1, some err)
  | none =>
    match backend built.1 .pull with
    | some err => (built.1 ++ [.pull], some err)
    | none =>
      let create := Call.create project.ServiceNames
      match backend (built.1 ++ [.pull]) create with
      | some err => (built.1 ++ [.pull, create], some err)
      | none =>
        let start := Call.start project.Name project.ServiceNames
        match backend (built.1 ++ [.pull, create]) start with
        | some err => (built.1 ++ [.pull, create, start], some err)
        | none => (built.1 ++ [.pull, create, start], none)

/-- The phases of a start as the specification lists them: build, only if
some service declares a build specification and then for exactly those
services; pull; create; start. -/
def startPhases (project : Project) : List Call :=
  (if servicesToBuild project = [] then [] else [.build (servicesToBuild project)])
    ++ [.pull, .create project.ServiceNames, .start project.Name project.ServiceNames]

/-- Running phases one after the other as the specification describes it:
each phase is invoked after the ones before it succeeded; the first error
ends the run and is returned; nothing else is invoked. -/
def runInOrder (backend : Backend) : List Call → List Call → List Call × Option String
  | done, [] => (done, none)
  | done, c :: rest =>
    match backend done c with
    | some err => (done ++ [c], some err)
    | none => runInOrder backend (done ++ [c]) rest

/-- A resource of a project as `Ps` lists it (`api.ContainerSummary`). -/
structure ContainerSummary where
  ID : String
  Name : String
  State : String
  deriving DecidableEq, Repr

/-- The loop `for i := 0; i < len(summary); i++` of `runComposeStats`: false
at the first resource whose state is not "running", true when the end of the
listing is reached. -/
def allRunning : List ContainerSummary → Bool
  | [] => true
  | s :: rest => if s.State ≠ "running" then false else allRunning rest

/-- Go `runComposeStats(dockerCli, project)`, given what
`composeService.Ps(ctx, project.Name, PsOptions{All: true})` returns; the
result is the pair of the boolean and the error (`none` for nil). -/
def runComposeStats (ps : Except String (List ContainerSummary)) : Bool × Option String :=
  match ps with
  | .error err => (false, some err)
  | .ok summary => (allRunning summary, none)

/-- The argument of the compose loader (`types.ConfigDetails`). -/
structure ConfigDetails where
  WorkingDir : String
  ConfigFiles : List String
  Environment : List (String × String)
  deriving DecidableEq, Repr

/-- The errors of `loadComposeProject`: that of `GetDockerComposePath` or
that of the compose loader. -/
inductive LoadErr where
  | resolve (e : Err)
  | loader (msg : String)
  deriving DecidableEq, Repr

/-- The project name `fmt.Sprintf("vt-compose-%s", template.ID)`. -/
def composeProjectName (template : Template) : String :=
  "vt-compose-" ++ template.ID

/-- The body of the loop over the services in `loadComposeProject`: the copy
of the service with the six compose labels set. -/
def labelService (projectName workingDir composePath name : String)
    (service : ServiceConfig) : ServiceConfig :=
  let labels0 : List (String × String) :=
    match service.Labels with
    | none => []
    | some labels => labels
  let labels1 := mapSet labels0 "com.docker.compose.project" projectName
  let labels2 := mapSet labels1 "com.docker.compose.service" name
  let labels3 := mapSet labels2 "com.docker.compose.project.working_dir" workingDir
  let labels4 := mapSet labels3 "com.docker.compose.project.config_files" composePath
  let labels5 := mapSet labels4 "com.docker.compose.config-hash" name
  let labels6 := mapSet labels5 "com.docker.compose.oneoff" "False"
  { service with Labels := some labels6 }

/-- The loop `for name, service := range project.Services` of
`loadComposeProject`, filling `updatedServices`. -/
def updateServices (projectName workingDir composePath : String)
    (services : List (String × ServiceConfig)) : List (String × ServiceConfig) :=
  services.foldl
    (fun updated e => mapSet updated e.1 (labelService projectName workingDir composePath e.1 e.2))
    []

/-- Go `loadComposeProject(template)` on the disk `disk`, with
`templatesPath` the configured `cfg.TemplatesPath` and `loadWithContext` what
the compose loader returns for the given configuration and project name. -/
def loadComposeProject (disk : Node) (templatesPath : String)
    (loadWithContext : ConfigDetails → String → Except String Project)
    (template : Template) : Except LoadErr Project :=
  match GetDockerComposePath disk template.ID templatesPath with
  | .error err => .error (.resolve err)
  | .ok (composePath, workingDir) =>
    let projectName := composeProjectName template
    let configDetails : ConfigDetails :=
      { WorkingDir := workingDir
        ConfigFiles := [composePath]
        Environment := [("COMPOSE_PROJECT_NAME", projectName)] }
    match loadWithContext configDetails projectName with
    | .error err => .error (.loader err)
    | .ok project =>
      .ok { project with
            Services := updateServices projectName workingDir composePath project.Services }

/-- A listing with one running and one exited resource. -/
def listingOneExited : List ContainerSummary :=
  [⟨"1", "web", "running"⟩, ⟨"2", "db", "exited"⟩]

/-- A listing with two running resources. -/
def listingAllRunning : List ContainerSummary :=
  [⟨"1", "web", "running"⟩, ⟨"2", "db", "running"⟩]

/-- The project that `loadComposeProject` returns for the template `ok` of
`diskComposePaths` with `sampleLoader`: both services carry the six labels,
`db` keeps the label it had. -/
def sampleLabelledProject : Project :=
  { Name := "vt-compose-ok"
    Services :=
      [("web", ⟨"", some ⟨"."⟩, some
          [("com.docker.compose.oneoff", "False"),
           ("com.docker.compose.config-hash", "web"),
           ("com.docker.compose.project.config_files", "/repo/web/ok/docker-compose.yml"),
           ("com.docker.compose.project.working_dir", "/repo/web/ok"),
           ("com.docker.compose.service", "web"),
           ("com.docker.compose.project", "vt-compose-ok")]⟩),
       ("db", ⟨"postgres", none, some
          [("com.docker.compose.oneoff", "False"),
           ("com.docker.compose.config-hash", "db"),
           ("com.docker.compose.project.config_files", "/repo/web/ok/docker-compose.yml"),
           ("com.docker.compose.project.working_dir", "/repo/web/ok"),
           ("com.docker.compose.service", "db"),
           ("com.docker.compose.project", "vt-compose-ok"),
           ("tier", "data")]⟩)] }

/-- A loader that returns, whatever it is asked, the project `app` with the
services `db` (an image, labelled) and `web` (built, without labels). -/
def sampleLoader : ConfigDetails → String → Except String Project :=
  fun _ projectName =>
    .ok { Name := projectName
          Services := [("db", ⟨"postgres", none, some [("tier", "data")]⟩),
                       ("web", ⟨"", some ⟨"."⟩, none⟩)] }

instance instDecidableEqExcept {ε α : Type} [DecidableEq ε] [DecidableEq α] :
    DecidableEq (Except ε α) := fun a b =>
  match a, b with
  | .ok x, .ok y => if h : x = y then isTrue (by rw [h]) else isFalse (fun h' => h (by cases h'; rfl))
  | .error x, .error y =>
    if h : x = y then isTrue (by rw [h]) else isFalse (fun h' => h (by cases h'; rfl))
  | .ok _, .error _ => isFalse (fun h => by cases h)
  | .error _, .ok _ => isFalse (fun h => by cases h)

/-! # Properties -/

/-! ## Reasoning principles for the file tree and the walker -/

theorem Node.induct {P : Node → Prop} {Q : List (String × Node) → Prop}
    (hfile : ∀ t, P (.file t)) (hlink : ∀ t, P (.symlink t))
    (hdir : ∀ es, Q es → P (.dir es))
    (hnil : Q []) (hcons : ∀ n c es, P c → Q es → Q ((n, c) :: es)) : ∀ d, P d := by
  intro d
  exact @Node.rec P (fun _ => True) Q (fun e => P e.2)
    hfile (fun t _ => hlink t) hdir trivial (fun _ _ => trivial) hnil
    (fun e es he hes => hcons e.1 e.2 es he hes) (fun _ _ h => h) d

theorem Node.induct_entries {P : Node → Prop} {Q : List (String × Node) → Prop}
    (hfile : ∀ t, P (.file t)) (hlink : ∀ t, P (.symlink t))
    (hdir : ∀ es, Q es → P (.dir es))
    (hnil : Q []) (hcons : ∀ n c es, P c → Q es → Q ((n, c) :: es)) : ∀ es, Q es := by
  intro es
  induction es with
  | nil => exact hnil
  | cons e es ih => exact hcons e.1 e.2 es (Node.induct hfile hlink hdir hnil hcons e.2) ih

theorem walkDir_dir {σ : Type} (fn : WalkDirFunc σ) (rel : List String) (name : String)
    (es : List (String × Node)) (s : σ) :
    walkDir fn rel name (.dir es) s =
      match (fn rel name (.dir es) s).1 with
      | .nil => walkEntries fn rel es (fn rel name (.dir es) s).2
      | .skipDir => (.nil, (fn rel name (.dir es) s).2)
      | sig => (sig, (fn rel name (.dir es) s).2) := by
  rw [walkDir]

theorem walkDir_file {σ : Type} (fn : WalkDirFunc σ) (rel : List String) (name : String)
    (t : Option Template) (s : σ) :
    walkDir fn rel name (.file t) s = fn rel name (.file t) s := by
  rw [walkDir]

theorem walkDir_symlink {σ : Type} (fn : WalkDirFunc σ) (rel : List String) (name : String)
    (t : Option Node) (s : σ) :
    walkDir fn rel name (.symlink t) s = fn rel name (.symlink t) s := by
  rw [walkDir]

theorem walkEntries_nil {σ : Type} (fn : WalkDirFunc σ) (rel : List String) (s : σ) :
    walkEntries fn rel [] s = (.nil, s) := by
  rw [walkEntries]

theorem walkEntries_cons {σ : Type} (fn : WalkDirFunc σ) (rel : List String) (n : String)
    (c : Node) (rest : List (String × Node)) (s : σ) :
    walkEntries fn rel ((n, c) :: rest) s =
      match (walkDir fn (rel ++ [n]) n c s).1 with
      | .nil => walkEntries fn rel rest (walkDir fn (rel ++ [n]) n c s).2
      | .skipDir => (.nil, (walkDir fn (rel ++ [n]) n c s).2)
      | sig => (sig, (walkDir fn (rel ++ [n]) n c s).2) := by
  rw [walkEntries]

/-! ### Linear logs -/

theorem LinTrace.pre_eq {σ : Type} {fn : WalkDirFunc σ} {s s' : σ} {v : Visit σ}
    {l : List (Visit σ)} {sig : Signal} (h : LinTrace fn s (v :: l) s' sig) : v.pre = s := by
  cases l with
  | nil => exact h.1
  | cons w l => exact h.1

theorem LinTrace.tail {σ : Type} {fn : WalkDirFunc σ} {s s' : σ} {v w : Visit σ}
    {l : List (Visit σ)} {sig : Signal} (h : LinTrace fn s (v :: w :: l) s' sig) :
    LinTrace fn (v.result fn).2 (w :: l) s' sig := h.2.2

theorem LinTrace.head_ok {σ : Type} {fn : WalkDirFunc σ} {s s' : σ} {v w : Visit σ}
    {l : List (Visit σ)} {sig : Signal} (h : LinTrace fn s (v :: w :: l) s' sig) :
    ∀ e, (v.result fn).1 ≠ .err e := h.2.1

theorem LinTrace.append {σ : Type} {fn : WalkDirFunc σ} {l1 l2 : List (Visit σ)} :
    ∀ {s s1 s2 : σ} {sig1 sig2 : Signal}, LinTrace fn s l1 s1 sig1 → (∀ e, sig1 ≠ .err e) →
      LinTrace fn s1 l2 s2 sig2 → LinTrace fn s (l1 ++ l2) s2 sig2 := by
  induction l1 with
  | nil =>
    intro s s1 s2 sig1 sig2 h1 _ h2
    have hs : s1 = s := h1.1
    subst hs
    simpa using h2
  | cons v l1 ih =>
    intro s s1 s2 sig1 sig2 h1 hne h2
    cases l1 with
    | nil =>
      obtain ⟨hpre, hs1, hiff⟩ := h1
      cases l2 with
      | nil =>
        obtain ⟨hs2, hne2⟩ := h2
        refine ⟨hpre, by rw [hs2, hs1], fun e => ⟨fun h => ?_, fun h => ?_⟩⟩
        · exact absurd ((hiff e).1 h) (hne e)
        · exact absurd h (hne2 e)
      | cons w l2 =>
        refine ⟨hpre, fun e h => hne e ((hiff e).1 h), ?_⟩
        rw [← hs1]
        exact h2
    | cons w l1 =>
      obtain ⟨hpre, hok, htl⟩ := h1
      exact ⟨hpre, hok, ih htl hne h2⟩

theorem LinTrace.change_signal {σ : Type} {fn : WalkDirFunc σ} {l : List (Visit σ)} :
    ∀ {s s' : σ} {sig sig' : Signal}, LinTrace fn s l s' sig → (∀ e, sig ≠ .err e) →
      (∀ e, sig' ≠ .err e) → LinTrace fn s l s' sig' := by
  induction l with
  | nil =>
    intro s s' sig sig' h _ hne'
    exact ⟨h.1, hne'⟩
  | cons v l ih =>
    intro s s' sig sig' h hne hne'
    cases l with
    | nil =>
      obtain ⟨hpre, hs1, hiff⟩ := h
      exact ⟨hpre, hs1, fun e => ⟨fun h => absurd ((hiff e).1 h) (hne e), fun h => absurd h (hne' e)⟩⟩
    | cons w l =>
      obtain ⟨hpre, hok, htl⟩ := h
      exact ⟨hpre, hok, ih htl hne hne'⟩

/-- An error answered at any recorded invocation is the value of the walk. -/
theorem LinTrace.err_of_mem {σ : Type} {fn : WalkDirFunc σ} {l : List (Visit σ)} :
    ∀ {s s' : σ} {sig : Signal} {v : Visit σ} {e : Err}, LinTrace fn s l s' sig → v ∈ l →
      (v.result fn).1 = .err e → sig = .err e := by
  induction l with
  | nil => intro s s' sig v e _ hv; cases hv
  | cons w l ih =>
    intro s s' sig v e h hv he
    cases l with
    | nil =>
      have hvw : v = w := by simpa using hv
      subst hvw
      exact (h.2.2 e).1 he
    | cons w' l =>
      rcases List.mem_cons.1 hv with hvw | hvl
      · subst hvw
        exact absurd he (h.2.1 e)
      · exact ih h.2.2 hvl he

/-- An error value of the walk was answered at a recorded invocation. -/
theorem LinTrace.mem_of_err {σ : Type} {fn : WalkDirFunc σ} {l : List (Visit σ)} :
    ∀ {s s' : σ} {sig : Signal} {e : Err}, LinTrace fn s l s' sig → sig = .err e →
      ∃ v, v ∈ l ∧ (v.result fn).1 = .err e := by
  induction l with
  | nil => intro s s' sig e h he; exact absurd he (h.2 e)
  | cons w l ih =>
    intro s s' sig e h he
    cases l with
    | nil => exact ⟨w, List.mem_cons_self _ _, (h.2.2 e).2 he⟩
    | cons w' l =>
      obtain ⟨v, hv, hve⟩ := ih h.2.2 he
      exact ⟨v, List.mem_cons_of_mem _ hv, hve⟩

/-- Between an invocation and a later one: the earlier one did not answer
with an error, and whatever the walk function preserves and holds after the
earlier one holds when the later one starts. -/
theorem LinTrace.head_before {σ : Type} {fn : WalkDirFunc σ} (Q : σ → Prop)
    (hQ : ∀ rel name d s, Q s → Q (fn rel name d s).2) {l : List (Visit σ)} :
    ∀ {s s' : σ} {sig : Signal} {v w : Visit σ}, LinTrace fn s (v :: l) s' sig → w ∈ l →
      (∀ e, (v.result fn).1 ≠ .err e) ∧ (Q (v.result fn).2 → Q w.pre) := by
  induction l with
  | nil => intro s s' sig v w _ hw; cases hw
  | cons w0 l ih =>
    intro s s' sig v w h hw
    refine ⟨h.2.1, fun hq => ?_⟩
    have hpre : w0.pre = (v.result fn).2 := LinTrace.pre_eq h.2.2
    rcases List.mem_cons.1 hw with hw0 | hwl
    · subst hw0
      rw [hpre]
      exact hq
    · refine (ih h.2.2 hwl).2 ?_
      have := hQ w0.rel w0.name w0.node w0.pre (by rw [hpre]; exact hq)
      exact this

theorem LinTrace.suffix {σ : Type} {fn : WalkDirFunc σ} {l1 : List (Visit σ)} :
    ∀ {s s' : σ} {sig : Signal} {v : Visit σ} {l : List (Visit σ)},
      LinTrace fn s (l1 ++ v :: l) s' sig → ∃ s0, LinTrace fn s0 (v :: l) s' sig := by
  induction l1 with
  | nil => intro s s' sig v l h; exact ⟨s, by simpa using h⟩
  | cons w l1 ih =>
    intro s s' sig v l h
    cases l1 with
    | nil => exact ⟨_, h.2.2⟩
    | cons w' l1 => exact ih h.2.2

/-! ### The log of a walk -/

theorem LinTrace.single {σ : Type} (fn : WalkDirFunc σ) (rel : List String) (name : String)
    (d : Node) (s : σ) :
    LinTrace fn s [⟨rel, name, d, s⟩] (fn rel name d s).2 (fn rel name d s).1 :=
  ⟨rfl, rfl, fun _ => Iff.rfl⟩

theorem VisitCtx.self {σ : Type} (A : List String → String → Node → Prop) (rel : List String)
    (name : String) (d : Node) (s : σ) :
    VisitCtx A rel name d (⟨rel, name, d, s⟩ : Visit σ) :=
  ⟨[], by simp, Descent.here rel name d, rfl⟩

theorem VisitCtx.child {σ : Type} {A : List String → String → Node → Prop}
    {rel : List String} {name n : String} {c : Node}
    {es : List (String × Node)} {v : Visit σ} (hmem : (n, c) ∈ es)
    (hA : A rel name (.dir es))
    (h : VisitCtx A (rel ++ [n]) n c v) : VisitCtx A rel name (.dir es) v := by
  obtain ⟨p, hrel, hdesc, hnm⟩ := h
  refine ⟨n :: p, by simp [hrel], Descent.step hA hmem hdesc, ?_⟩
  rw [hnm]; cases p <;> simp [List.getLastD]

theorem Descent.entryAt {A : List String → String → Node → Prop} {rel : List String}
    {name : String} {d : Node} {p : List String} {d' : Node}
    (h : Descent A rel name d p d') : EntryAt d p d' := by
  induction h with
  | here rel name d => exact EntryAt.here d
  | step _ hmem _ ih => exact EntryAt.step hmem ih

theorem Descent.head {A : List String → String → Node → Prop} {rel : List String}
    {name : String} {d : Node} {p : List String} {d' : Node}
    (h : Descent A rel name d p d') (hp : p ≠ []) : A rel name d := by
  cases h with
  | here => exact absurd rfl hp
  | step hA _ _ => exact hA

/-- On the way down to an entry reached by the walk of a category no
directory is hidden, but possibly the walk root and the entry itself. -/
theorem Descent.hidden_free {rel : List String} {name : String} {d : Node} {p : List String}
    {d' : Node} (h : Descent loadDescends rel name d p d') :
    (p ≠ [] → rel ≠ [] → hasPrefix name "." = false) ∧
      ∀ c ∈ p.dropLast, hasPrefix c "." = false := by
  induction h with
  | here rel name d => exact ⟨fun h => absurd rfl h, by simp⟩
  | @step rel name entries n child p d hA hmem hdesc ih =>
    refine ⟨fun _ hrel => ?_, ?_⟩
    · rcases hA with h0 | h1
      · exact absurd h0 hrel
      · exact h1.1
    · intro c hc
      cases p with
      | nil => simp at hc
      | cons q p =>
        rw [List.dropLast_cons₂] at hc
        rcases List.mem_cons.1 hc with h1 | h2
        · subst h1
          exact ih.1 (by simp) (by simp)
        · exact ih.2 c h2

/-- On the way down to an entry reached by the walk of a category, every
directory strictly between the walk root and the entry is a real directory
that is not a template directory. -/
theorem Descent.no_template_between {rel : List String} {name : String} {d : Node}
    {p : List String} {d' : Node} (h : Descent loadDescends rel name d p d') :
    ∀ q r, p = q ++ r → q ≠ [] → r ≠ [] →
      ∃ mid, EntryAt d q mid ∧ mid.isDir = true ∧ isTemplateDirectory mid = false := by
  induction h with
  | here rel name d =>
    intro q r hqr hq _
    exact absurd (List.append_eq_nil.1 hqr.symm).1 hq
  | @step rel name entries n child p d hA hmem hdesc ih =>
    intro q r hqr hq hr
    cases q with
    | nil => exact absurd rfl hq
    | cons a q =>
      simp only [List.cons_append, List.cons.injEq] at hqr
      obtain ⟨ha, hp⟩ := hqr
      subst ha
      cases q with
      | nil =>
        have hpr : p = r := by simpa using hp
        have hpne : p ≠ [] := by rw [hpr]; exact hr
        have hchild := hdesc.head hpne
        refine ⟨child, EntryAt.step hmem (EntryAt.here _), ?_, ?_⟩
        · cases hdesc with
          | here => exact absurd rfl hpne
          | step _ _ _ => rfl
        · rcases hchild with h0 | h1
          · simp at h0
          · exact h1.2.1
      | cons b q =>
        obtain ⟨mid, hmid, hdir, htd⟩ := ih (b :: q) r hp (by simp) hr
        exact ⟨mid, EntryAt.step hmem hmid, hdir, htd⟩

/-- What the context of an entry reached by the walk of a category says in
terms of `EntryAt` and hidden names. -/
theorem VisitCtx.unfold {σ : Type} {rel : List String} {name : String} {d : Node}
    {v : Visit σ} (h : VisitCtx loadDescends rel name d v) :
    ∃ p, v.rel = rel ++ p ∧ EntryAt d p v.node ∧ v.name = p.getLastD name ∧
      (∀ c ∈ p.dropLast, hasPrefix c "." = false) ∧
      (p ≠ [] → rel ≠ [] → hasPrefix name "." = false) := by
  obtain ⟨p, hrel, hdesc, hnm⟩ := h
  exact ⟨p, hrel, hdesc.entryAt, hnm, hdesc.hidden_free.2, hdesc.hidden_free.1⟩

/-- The wrapped walk returns what the plain walk returns, and its log is a
linear reading of the plain walk; every recorded invocation lies below the
walked entry.  `hfn` says the walk function only lets the walk descend below
directories that satisfy `A`. -/
theorem walkDir_traced {σ : Type} (fn : WalkDirFunc σ)
    (A : List String → String → Node → Prop)
    (hfn : ∀ rel name es s, (fn rel name (.dir es) s).1 = .nil → A rel name (.dir es)) :
    ∀ d : Node, ∀ (rel : List String) (name : String) (s : σ) (log : List (Visit σ)),
      ∃ new, walkDir (traced fn) rel name d (s, log)
          = ((walkDir fn rel name d s).1, ((walkDir fn rel name d s).2, log ++ new)) ∧
        new ≠ [] ∧
        LinTrace fn s new (walkDir fn rel name d s).2 (walkDir fn rel name d s).1 ∧
        ∀ v ∈ new, VisitCtx A rel name d v := by
  refine Node.induct
    (Q := fun es => ∀ (rel : List String) (s : σ) (log : List (Visit σ)),
      ∃ new, walkEntries (traced fn) rel es (s, log)
          = ((walkEntries fn rel es s).1, ((walkEntries fn rel es s).2, log ++ new)) ∧
        LinTrace fn s new (walkEntries fn rel es s).2 (walkEntries fn rel es s).1 ∧
        ∀ v ∈ new, ∃ n c, (n, c) ∈ es ∧ VisitCtx A (rel ++ [n]) n c v)
    ?_ ?_ ?_ ?_ ?_
  · intro t rel name s log
    refine ⟨[⟨rel, name, .file t, s⟩], ?_, by simp, ?_, ?_⟩
    · simp [walkDir_file, traced]
    · rw [walkDir_file]; exact LinTrace.single fn rel name _ s
    · intro v hv
      have : v = ⟨rel, name, .file t, s⟩ := by simpa using hv
      subst this
      exact VisitCtx.self A rel name _ s
  · intro t rel name s log
    refine ⟨[⟨rel, name, .symlink t, s⟩], ?_, by simp, ?_, ?_⟩
    · simp [walkDir_symlink, traced]
    · rw [walkDir_symlink]; exact LinTrace.single fn rel name _ s
    · intro v hv
      have : v = ⟨rel, name, .symlink t, s⟩ := by simpa using hv
      subst this
      exact VisitCtx.self A rel name _ s
  · intro es ih rel name s log
    have h0 := LinTrace.single fn rel name (.dir es) s
    rw [walkDir_dir, walkDir_dir]
    cases hsig : (fn rel name (.dir es) s).1 with
    | nil =>
      obtain ⟨new, heq, hlin, hctx⟩ := ih rel (fn rel name (.dir es) s).2
        (log ++ [⟨rel, name, .dir es, s⟩])
      refine ⟨⟨rel, name, .dir es, s⟩ :: new, ?_, by simp, ?_, ?_⟩
      · simp only [traced, hsig]
        rw [heq]
        simp
      · simp only []
        rw [hsig] at h0
        exact @LinTrace.append σ fn [_] new _ _ _ _ _ h0 (fun e h => by cases h) hlin
      · intro v hv
        rcases List.mem_cons.1 hv with h1 | h2
        · subst h1; exact VisitCtx.self A rel name _ s
        · obtain ⟨n, c, hmem, hc⟩ := hctx v h2
          exact VisitCtx.child hmem (hfn rel name es s hsig) hc
    | skipDir =>
      refine ⟨[⟨rel, name, .dir es, s⟩], ?_, by simp, ?_, ?_⟩
      · simp [traced, hsig]
      · simp only []
        rw [hsig] at h0
        exact LinTrace.change_signal h0 (fun e h => by cases h) (fun e h => by cases h)
      · intro v hv
        have : v = ⟨rel, name, .dir es, s⟩ := by simpa using hv
        subst this
        exact VisitCtx.self A rel name _ s
    | skipAll =>
      refine ⟨[⟨rel, name, .dir es, s⟩], ?_, by simp, ?_, ?_⟩
      · simp [traced, hsig]
      · simp only []
        rw [hsig] at h0
        exact h0
      · intro v hv
        have : v = ⟨rel, name, .dir es, s⟩ := by simpa using hv
        subst this
        exact VisitCtx.self A rel name _ s
    | err e =>
      refine ⟨[⟨rel, name, .dir es, s⟩], ?_, by simp, ?_, ?_⟩
      · simp [traced, hsig]
      · simp only []
        rw [hsig] at h0
        exact h0
      · intro v hv
        have : v = ⟨rel, name, .dir es, s⟩ := by simpa using hv
        subst this
        exact VisitCtx.self A rel name _ s
  · intro rel s log
    exact ⟨[], by simp [walkEntries_nil], by
      rw [walkEntries_nil]; exact ⟨rfl, fun e h => by cases h⟩, by simp⟩
  · intro n c es ihc ihes rel s log
    obtain ⟨new1, heq1, hne1, hlin1, hctx1⟩ := ihc (rel ++ [n]) n s log
    rw [walkEntries_cons, walkEntries_cons, heq1]
    cases hsig : (walkDir fn (rel ++ [n]) n c s).1 with
    | nil =>
      obtain ⟨new2, heq2, hlin2, hctx2⟩ := ihes rel (walkDir fn (rel ++ [n]) n c s).2 (log ++ new1)
      refine ⟨new1 ++ new2, ?_, ?_, ?_⟩
      · simp only [hsig]
        rw [heq2]
        simp
      · simp only []
        rw [hsig] at hlin1
        exact LinTrace.append hlin1 (fun e h => by cases h) hlin2
      · intro v hv
        rcases List.mem_append.1 hv with h1 | h2
        · exact ⟨n, c, List.mem_cons_self _ _, hctx1 v h1⟩
        · obtain ⟨n', c', hmem, hc⟩ := hctx2 v h2
          exact ⟨n', c', List.mem_cons_of_mem _ hmem, hc⟩
    | skipDir =>
      refine ⟨new1, by simp [hsig], ?_, fun v hv => ⟨n, c, List.mem_cons_self _ _, hctx1 v hv⟩⟩
      simp only []
      rw [hsig] at hlin1
      exact LinTrace.change_signal hlin1 (fun e h => by cases h) (fun e h => by cases h)
    | skipAll =>
      refine ⟨new1, by simp [hsig], ?_, fun v hv => ⟨n, c, List.mem_cons_self _ _, hctx1 v hv⟩⟩
      simp only []
      rw [hsig] at hlin1
      exact hlin1
    | err e =>
      refine ⟨new1, by simp [hsig], ?_, fun v hv => ⟨n, c, List.mem_cons_self _ _, hctx1 v hv⟩⟩
      simp only []
      rw [hsig] at hlin1
      exact hlin1

/-! ### The walk function of `loadTemplatesFromCategory` -/

/-- The answer of the walk function at an entry where it gets as far as
parsing the descriptor. -/
theorem loadFn_parses {rel : List String} {name : String} {d : Node} (m : TemplateMap)
    (hrel : rel ≠ []) (hname : hasPrefix name "." = false) (hdir : d.isDir = true)
    (hdepth : rel.length ≤ maxScanDepth) (htd : isTemplateDirectory d = true) :
    loadTemplatesFromCategoryFn rel name d m =
      match LoadTemplate d with
      | none => (.err (.loadTemplate name), m)
      | some tmpl =>
        if tmpl.ID ≠ name then (.err (.idMismatch tmpl.ID name), m)
        else
          match mapGet m tmpl.ID with
          | some existing => (.err (.duplicateID tmpl.ID existing.Info.Name), m)
          | none => (.skipDir, mapSet m tmpl.ID tmpl) := by
  have hsym : d.isSymlink = false := by
    cases d <;> simp_all [Node.isDir, Node.isSymlink]
  have hlen : ¬ (rel.length - 1 + 1 > maxScanDepth) := by
    have : 0 < rel.length := List.length_pos.2 hrel
    omega
  simp only [loadTemplatesFromCategoryFn, hrel, hname, hdir, hsym, htd, hlen, if_false]
  simp

/-- Below the root, at a real and non-hidden directory deeper than the
ceiling, the walk function answers with the depth error, whatever the map. -/
theorem loadFn_too_deep {rel : List String} {name : String} {d : Node} (m : TemplateMap)
    (hrel : rel ≠ []) (hname : hasPrefix name "." = false) (hdir : d.isDir = true)
    (hdepth : maxScanDepth < rel.length) :
    loadTemplatesFromCategoryFn rel name d m = (.err (.depthExceeded rel), m) := by
  have hsym : d.isSymlink = false := by
    cases d <;> simp_all [Node.isDir, Node.isSymlink]
  have hlen : rel.length - 1 + 1 > maxScanDepth := by omega
  simp [loadTemplatesFromCategoryFn, hrel, hname, hdir, hsym, hlen]

/-- At a template directory below the root the walk function never answers
`nil`: the walk does not descend. -/
theorem loadFn_template_not_nil {rel : List String} {name : String} {d : Node}
    (m : TemplateMap) (hrel : rel ≠ []) (hdir : d.isDir = true)
    (htd : isTemplateDirectory d = true) :
    (loadTemplatesFromCategoryFn rel name d m).1 ≠ .nil := by
  by_cases hname : hasPrefix name "." = true
  · simp [loadTemplatesFromCategoryFn, hrel, hname, hdir]
  have hname' : hasPrefix name "." = false := by simpa using hname
  by_cases hdepth : rel.length ≤ maxScanDepth
  · rw [loadFn_parses m hrel hname' hdir hdepth htd]
    cases LoadTemplate d with
    | none => simp
    | some tmpl =>
      simp only []
      split
      · simp
      · split <;> simp
  · rw [loadFn_too_deep m hrel hname' hdir (by omega)]
    simp

/-- The walk only descends below a directory that is the walk root, or is
not hidden, not a template directory and within the depth ceiling. -/
theorem loadFn_descends {rel : List String} {name : String} {es : List (String × Node)}
    {m : TemplateMap} (h : (loadTemplatesFromCategoryFn rel name (.dir es) m).1 = .nil) :
    loadDescends rel name (.dir es) := by
  by_cases hrel : rel = []
  · exact Or.inl hrel
  right
  have hname : hasPrefix name "." = false := by
    by_contra hh
    have hh' : hasPrefix name "." = true := by simpa using hh
    simp [loadTemplatesFromCategoryFn, hrel, hh', Node.isDir] at h
  have hdir : (Node.dir es).isDir = true := rfl
  have hdepth : rel.length ≤ maxScanDepth := by
    by_contra hd
    rw [loadFn_too_deep m hrel hname hdir (by omega)] at h
    cases h
  refine ⟨hname, ?_, hdepth⟩
  by_contra htd
  have htd' : isTemplateDirectory (.dir es) = true := by simpa using htd
  exact loadFn_template_not_nil m hrel hdir htd' h

theorem loadFn_mismatch {rel : List String} {name : String} {d : Node} {tmpl : Template}
    (m : TemplateMap) (hrel : rel ≠ []) (hname : hasPrefix name "." = false)
    (hdir : d.isDir = true) (hdepth : rel.length ≤ maxScanDepth)
    (htd : isTemplateDirectory d = true) (hload : LoadTemplate d = some tmpl)
    (hne : tmpl.ID ≠ name) :
    loadTemplatesFromCategoryFn rel name d m = (.err (.idMismatch tmpl.ID name), m) := by
  rw [loadFn_parses m hrel hname hdir hdepth htd, hload]
  simp only []
  rw [if_pos hne]

theorem loadFn_duplicate {rel : List String} {name : String} {d : Node} {tmpl existing : Template}
    (m : TemplateMap) (hrel : rel ≠ []) (hname : hasPrefix name "." = false)
    (hdir : d.isDir = true) (hdepth : rel.length ≤ maxScanDepth)
    (htd : isTemplateDirectory d = true) (hload : LoadTemplate d = some tmpl)
    (hid : tmpl.ID = name) (hget : mapGet m tmpl.ID = some existing) :
    loadTemplatesFromCategoryFn rel name d m
      = (.err (.duplicateID tmpl.ID existing.Info.Name), m) := by
  rw [loadFn_parses m hrel hname hdir hdepth htd, hload]
  simp only []
  rw [if_neg (not_not.2 hid), hget]

theorem loadFn_stores {rel : List String} {name : String} {d : Node} {tmpl : Template}
    (m : TemplateMap) (hrel : rel ≠ []) (hname : hasPrefix name "." = false)
    (hdir : d.isDir = true) (hdepth : rel.length ≤ maxScanDepth)
    (htd : isTemplateDirectory d = true) (hload : LoadTemplate d = some tmpl)
    (hid : tmpl.ID = name) (hget : mapGet m tmpl.ID = none) :
    loadTemplatesFromCategoryFn rel name d m = (.skipDir, mapSet m tmpl.ID tmpl) := by
  rw [loadFn_parses m hrel hname hdir hdepth htd, hload]
  simp only []
  rw [if_neg (not_not.2 hid), hget]

/-- The walk function either leaves the captured map alone or stores a
freshly parsed template under its ID, and the latter only at a real,
non-hidden directory below the root and within the ceiling whose descriptor
ID equals its name and is not yet in the map. -/
theorem loadFn_effect (rel : List String) (name : String) (d : Node) (m : TemplateMap) :
    (loadTemplatesFromCategoryFn rel name d m).2 = m ∨
      ∃ tmpl, rel ≠ [] ∧ hasPrefix name "." = false ∧ d.isDir = true ∧
        rel.length ≤ maxScanDepth ∧ LoadTemplate d = some tmpl ∧ tmpl.ID = name ∧
        mapGet m tmpl.ID = none ∧
        loadTemplatesFromCategoryFn rel name d m = (.skipDir, mapSet m tmpl.ID tmpl) := by
  by_cases hrel : rel = []
  · left; simp [loadTemplatesFromCategoryFn, hrel]
  by_cases hname : hasPrefix name "." = true
  · left
    simp only [loadTemplatesFromCategoryFn, hrel, hname, if_false, if_true]
    split <;> rfl
  have hname' : hasPrefix name "." = false := by simpa using hname
  by_cases hsym : d.isSymlink = true
  · left; simp [loadTemplatesFromCategoryFn, hrel, hname', hsym]
  by_cases hdir : d.isDir = true
  swap
  · left; simp [loadTemplatesFromCategoryFn, hrel, hname', hsym, hdir]
  by_cases hdepth : rel.length ≤ maxScanDepth
  swap
  · left
    have hlen : rel.length - 1 + 1 > maxScanDepth := by omega
    simp [loadTemplatesFromCategoryFn, hrel, hname', hsym, hdir, hlen]
  by_cases htd : isTemplateDirectory d = true
  swap
  · left
    have hlen : ¬ (rel.length - 1 + 1 > maxScanDepth) := by
      have : 0 < rel.length := List.length_pos.2 hrel
      omega
    simp [loadTemplatesFromCategoryFn, hrel, hname', hsym, hdir, hlen, htd]
  rw [loadFn_parses m hrel hname' hdir hdepth htd]
  cases hload : LoadTemplate d with
  | none => left; rfl
  | some tmpl =>
    by_cases hid : tmpl.ID = name
    swap
    · left; simp [hid]
    subst hid
    cases hget : mapGet m tmpl.ID with
    | some existing => left; simp [hget]
    | none =>
      right
      exact ⟨tmpl, hrel, hname', hdir, hdepth, rfl, rfl, hget, by simp [hget]⟩

/-- The walk of a category, read off its log. -/
theorem categoryVisits_spec (category : Node) (categoryName : String) :
    ∃ sig s', LinTrace loadTemplatesFromCategoryFn [] (categoryVisits category categoryName) s' sig ∧
      (∀ v ∈ categoryVisits category categoryName,
        VisitCtx loadDescends [] categoryName category v) ∧
      ((∃ e, sig = .err e ∧
          loadTemplatesFromCategory category categoryName = .error (.scanCategory categoryName e)) ∨
        ((∀ e, sig ≠ .err e) ∧ loadTemplatesFromCategory category categoryName = .ok s')) := by
  obtain ⟨new, heq, _, hlin, hctx⟩ :=
    walkDir_traced loadTemplatesFromCategoryFn loadDescends (fun rel name es s h => loadFn_descends h)
      category [] categoryName [] []
  have hvis : categoryVisits category categoryName = new := by
    simp only [categoryVisits, WalkDir, heq]
    split <;> simp
  rw [hvis]
  refine ⟨_, _, hlin, hctx, ?_⟩
  cases hsig : (walkDir loadTemplatesFromCategoryFn [] categoryName category []).1 with
  | err e =>
    left
    exact ⟨e, rfl, by simp [loadTemplatesFromCategory, WalkDir, hsig]⟩
  | nil =>
    right
    exact ⟨(fun e h => by cases h), by simp [loadTemplatesFromCategory, WalkDir, hsig]⟩
  | skipDir =>
    right
    exact ⟨(fun e h => by cases h), by simp [loadTemplatesFromCategory, WalkDir, hsig]⟩
  | skipAll =>
    right
    exact ⟨(fun e h => by cases h), by simp [loadTemplatesFromCategory, WalkDir, hsig]⟩

/-! ### Where the templates of a result come from -/

theorem LinTrace.invariant {σ : Type} {fn : WalkDirFunc σ} (P : σ → Prop)
    {l : List (Visit σ)} :
    ∀ {s s' : σ} {sig : Signal}, LinTrace fn s l s' sig → P s →
      (∀ v ∈ l, P v.pre → P (v.result fn).2) → P s' := by
  induction l with
  | nil => intro s s' sig h hs _; rw [h.1]; exact hs
  | cons v l ih =>
    intro s s' sig h hs hstep
    have hv : P (v.result fn).2 :=
      hstep v (List.mem_cons_self _ _) (by rw [LinTrace.pre_eq h]; exact hs)
    cases l with
    | nil => rw [h.2.1]; exact hv
    | cons w l => exact ih h.2.2 hv (fun u hu => hstep u (List.mem_cons_of_mem _ hu))

theorem mem_mapSet {β : Type} {m : List (String × β)} {k : String} {v : β} {e : String × β}
    (h : e ∈ mapSet m k v) : e = (k, v) ∨ e ∈ m := by
  rcases List.mem_cons.1 h with h1 | h2
  · exact Or.inl h1
  · exact Or.inr (List.mem_filter.1 h2).1

theorem mem_mergeTemplates {ct : TemplateMap} :
    ∀ {acc : TemplateMap} {e : String × Template}, e ∈ mergeTemplates acc ct → e ∈ acc ∨ e ∈ ct := by
  induction ct with
  | nil => intro acc e h; exact Or.inl h
  | cons x ct ih =>
    intro acc e h
    have h' : e ∈ mergeTemplates (mapSet acc x.1 x.2) ct := h
    rcases ih h' with h1 | h2
    · rcases mem_mapSet h1 with h3 | h4
      · exact Or.inr (by rw [h3]; exact List.mem_cons_self _ _)
      · exact Or.inl h4
    · exact Or.inr (List.mem_cons_of_mem _ h2)

theorem mem_of_mem_dropLast_or_getLast {p : List String} {c : String} (hp : p ≠ [])
    (hc : c ∈ p) : c ∈ p.dropLast ∨ c = p.getLast hp := by
  have h := List.dropLast_append_getLast hp
  rw [← h] at hc
  rcases List.mem_append.1 hc with h1 | h2
  · exact Or.inl h1
  · exact Or.inr (by simpa using h2)

/-- Every template a category walk returns is stored under its own ID and
was stored by the walk function at an entry the walk reached. -/
theorem category_provenance {category : Node} {categoryName : String} {m : TemplateMap}
    (h : loadTemplatesFromCategory category categoryName = .ok m) :
    ∀ e ∈ m, e.2.ID = e.1 ∧ ∃ v, v ∈ categoryVisits category categoryName ∧ v.stores e.2 := by
  obtain ⟨sig, s', hlin, _, hres⟩ := categoryVisits_spec category categoryName
  rcases hres with ⟨e, _, he⟩ | ⟨_, hok⟩
  · rw [he] at h; cases h
  rw [hok] at h
  have hm : s' = m := by injection h
  subst hm
  refine LinTrace.invariant
    (fun m => ∀ e ∈ m, e.2.ID = e.1 ∧
      ∃ v, v ∈ categoryVisits category categoryName ∧ v.stores e.2)
    hlin (by simp) ?_
  intro v hv hpre
  rcases loadFn_effect v.rel v.name v.node v.pre with hsame | ⟨t, hrel, hname, hdir, hdepth, hload, hid, _, heq⟩
  · simp only [Visit.result]
    rw [hsame]
    exact hpre
  · simp only [Visit.result, heq]
    intro e he
    rcases mem_mapSet he with h1 | h2
    · subst h1
      exact ⟨rfl, v, hv, hrel, hname, hdir, hdepth, hload, hid, heq⟩
    · exact hpre e h2

/-- Every entry that discovery reaches belongs to the walk of a category it
does not skip, and lies below that category. -/
theorem visitsOfCategories_ctx {cat : String} {v : Visit TemplateMap} :
    ∀ (es : List (String × Node)), (cat, v) ∈ visitsOfCategories es →
      ∃ category, (cat, category) ∈ es ∧ hasPrefix cat "." = false ∧ category.isDir = true ∧
        v ∈ categoryVisits category cat ∧ VisitCtx loadDescends [] cat category v := by
  intro es
  induction es with
  | nil => intro h; simp [visitsOfCategories] at h
  | cons x es ih =>
    intro hmem
    obtain ⟨n, c⟩ := x
    rw [visitsOfCategories] at hmem
    by_cases hskip : (hasPrefix n "." || !c.isDir) = true
    · rw [if_pos hskip] at hmem
      obtain ⟨category, h1, h2⟩ := ih hmem
      exact ⟨category, List.mem_cons_of_mem _ h1, h2⟩
    · rw [if_neg hskip] at hmem
      have hn : hasPrefix n "." = false := by cases hh : hasPrefix n "." <;> simp_all
      have hc : c.isDir = true := by cases hh : c.isDir <;> simp_all
      have hin : (cat, v) ∈ (categoryVisits c n).map (fun v => (n, v)) →
          ∃ category, (cat, category) ∈ (n, c) :: es ∧ hasPrefix cat "." = false ∧
            category.isDir = true ∧ v ∈ categoryVisits category cat ∧
            VisitCtx loadDescends [] cat category v := by
        intro hm
        obtain ⟨v', hv', heq⟩ := List.mem_map.1 hm
        cases heq
        obtain ⟨_, _, _, hctx, _⟩ := categoryVisits_spec c cat
        exact ⟨c, List.mem_cons_self _ _, hn, hc, hv', hctx v hv'⟩
      cases hload : loadTemplatesFromCategory c n with
      | error e' =>
        rw [hload] at hmem
        exact hin hmem
      | ok ct =>
        rw [hload] at hmem
        rcases List.mem_append.1 hmem with h1 | h2
        · exact hin h1
        · obtain ⟨category, h3, h4⟩ := ih h2
          exact ⟨category, List.mem_cons_of_mem _ h3, h4⟩

/-- The invariant of the category loop: every template in the map was
there at the start or is stored under its own ID and was stored by the walk
function at an entry that discovery reached. -/
theorem loadCategories_provenance :
    ∀ (es : List (String × Node)) (acc m : TemplateMap), loadCategories es acc = .ok m →
      ∀ e ∈ m, e ∈ acc ∨
        (e.2.ID = e.1 ∧ ∃ cat v, (cat, v) ∈ visitsOfCategories es ∧ v.stores e.2) := by
  intro es
  induction es with
  | nil =>
    intro acc m h e he
    have : acc = m := by simpa [loadCategories] using h
    rw [this]; exact Or.inl he
  | cons x es ih =>
    intro acc m h e he
    obtain ⟨name, cat⟩ := x
    rw [loadCategories] at h
    rw [visitsOfCategories]
    by_cases hskip : (hasPrefix name "." || !cat.isDir) = true
    · rw [if_pos hskip] at h ⊢
      exact ih acc m h e he
    · rw [if_neg hskip] at h ⊢
      cases hload : loadTemplatesFromCategory cat name with
      | error e' => rw [hload] at h; cases h
      | ok ct =>
        rw [hload] at h
        simp only []
        rcases ih _ m h e he with h1 | ⟨hid, c, v, hv, hst⟩
        · rcases mem_mergeTemplates h1 with h2 | h3
          · exact Or.inl h2
          · obtain ⟨hid, v, hv, hst⟩ := category_provenance hload e h3
            exact Or.inr ⟨hid, name, v,
              List.mem_append_left _ (List.mem_map.2 ⟨v, hv, rfl⟩), hst⟩
        · exact Or.inr ⟨hid, c, v, List.mem_append_right _ hv, hst⟩

theorem getLast?_of_getLastD {p : List String} {cat name : String} (hp : p ≠ [])
    (h : name = p.getLastD cat) : (cat :: p).getLast? = some name := by
  cases p with
  | nil => exact absurd rfl hp
  | cons a p =>
    rw [h, List.getLast?_cons_cons, List.getLast?_eq_getLast _ (List.cons_ne_nil a p)]
    rfl

/-- Where the templates returned by discovery come from: each is stored
under its own ID and was stored by the walk function at an entry that the
walk reached, which lies below the repository root on a path through real
directories whose last component is the name of the entry and none of whose
components is hidden. -/
theorem discover_provenance {repo : Node} {dirEntry : List (String × Node)} {m : TemplateMap}
    (hread : readDir repo = some dirEntry) (h : loadTemplatesFromDirectory repo = .ok m) :
    ∀ e ∈ m, e.2.ID = e.1 ∧ ∃ cat v, (cat, v) ∈ discoverVisits repo ∧ v.stores e.2 ∧
      EntryAt (.dir dirEntry) (cat :: v.rel) v.node ∧
      (cat :: v.rel).getLast? = some v.name ∧
      ∀ c ∈ cat :: v.rel, hasPrefix c "." = false := by
  rw [loadTemplatesFromDirectory, hread] at h
  intro e he
  rcases loadCategories_provenance dirEntry [] m h e he with h0 | ⟨hid, cat, v, hv, hst⟩
  · cases h0
  obtain ⟨category, hmem, hcat, _, _, hctx⟩ := visitsOfCategories_ctx dirEntry hv
  obtain ⟨p, hp, hat, hnm, hdrop, _⟩ := hctx.unfold
  have hp' : v.rel = p := by simpa using hp
  have hpne : p ≠ [] := by rw [← hp']; exact hst.1
  refine ⟨hid, cat, v, ?_, hst, ?_, ?_, ?_⟩
  · rw [discoverVisits, hread]; exact hv
  · rw [hp']; exact EntryAt.step hmem hat
  · rw [hp']; exact getLast?_of_getLastD hpne hnm
  · intro c hc
    rw [hp'] at hc
    rcases List.mem_cons.1 hc with h1 | h2
    · rw [h1]; exact hcat
    · rcases mem_of_mem_dropLast_or_getLast hpne h2 with h3 | h4
      · exact hdrop c h3
      · have hlast : p.getLast hpne = v.name := by
          rw [hnm]
          cases p with
          | nil => exact absurd rfl hpne
          | cons a p => rfl
        rw [h4, hlast]; exact hst.2.1

theorem validName_of_mem : ∀ {es : List (String × Node)} {name : String} {child : Node},
    entriesNamesValid es = true → (name, child) ∈ es →
      validName name = true ∧ child.namesValid = true := by
  intro es
  induction es with
  | nil => intro name child _ h; cases h
  | cons x es ih =>
    intro name child hv hmem
    obtain ⟨n, c⟩ := x
    rw [entriesNamesValid] at hv
    simp only [Bool.and_eq_true] at hv
    rcases List.mem_cons.1 hmem with h1 | h2
    · cases h1
      exact ⟨hv.1.1, hv.1.2⟩
    · exact ih hv.2 h2

theorem EntryAt.validNames {root : Node} {path : List String} {d : Node}
    (h : EntryAt root path d) : root.namesValid = true → ∀ c ∈ path, validName c = true := by
  induction h with
  | here d => intro _ c hc; cases hc
  | step hmem _ ih =>
    intro hv c hc
    rw [Node.namesValid] at hv
    obtain ⟨h1, h2⟩ := validName_of_mem hv hmem
    rcases List.mem_cons.1 hc with h3 | h4
    · rw [h3]; exact h1
    · exact ih h2 c h4

/-! ## Claims -/

/-- C1. On every corpus on which discovery succeeds, every entry `(k, t)` of
the returned mapping has `t.ID = k`, the ID is not empty, and it is the base
name of the directory the template was loaded from: `t` was stored by the
walk function at an entry `v` the walk reached (`v.stores t`: a real
directory whose descriptor parses to `t`), which lies at `cat :: v.rel` below
the repository root, and the last component of that path is `t.ID`. -/
theorem discover_id_is_key_and_directory_name (repo : Node)
    (dirEntry : List (String × Node)) (m : TemplateMap)
    (hread : readDir repo = some dirEntry) (hvalid : entriesNamesValid dirEntry = true)
    (h : loadTemplatesFromDirectory repo = .ok m) :
    ∀ k t, (k, t) ∈ m →
      t.ID = k ∧ t.ID ≠ "" ∧
      ∃ cat v, (cat, v) ∈ discoverVisits repo ∧ v.stores t ∧
        EntryAt (.dir dirEntry) (cat :: v.rel) v.node ∧
        (cat :: v.rel).getLast? = some t.ID := by
  intro k t hkt
  obtain ⟨hid, cat, v, hv, hst, hat, hlast, _⟩ := discover_provenance hread h (k, t) hkt
  have hname : t.ID = v.name := hst.2.2.2.2.2.1
  refine ⟨hid, ?_, cat, v, hv, hst, hat, by rw [hname]; exact hlast⟩
  have hmem : v.name ∈ cat :: v.rel := List.mem_of_mem_getLast? hlast
  have hv := EntryAt.validNames hat (by rw [Node.namesValid]; exact hvalid) v.name hmem
  intro hempty
  rw [← hname, hempty] at hv
  exact absurd hv (by decide)

/-- C1, at the corpus `db/weak-auth`, `web/sqli-basic`. -/
theorem discover_id_is_key_and_directory_name_witness :
    readDir corpusWebDb = some corpusWebDbEntries ∧
    entriesNamesValid corpusWebDbEntries = true ∧
    loadTemplatesFromDirectory corpusWebDb = .ok corpusWebDbResult ∧
    ((sampleTemplate "sqli-basic" "docker-compose.yml").ID = "sqli-basic" ∧
      (sampleTemplate "sqli-basic" "docker-compose.yml").ID ≠ "" ∧
      ∃ cat v, (cat, v) ∈ discoverVisits corpusWebDb ∧
        v.stores (sampleTemplate "sqli-basic" "docker-compose.yml") ∧
        EntryAt (.dir corpusWebDbEntries) (cat :: v.rel) v.node ∧
        (cat :: v.rel).getLast? = some (sampleTemplate "sqli-basic" "docker-compose.yml").ID) :=
  ⟨rfl, by decide, by decide,
    discover_id_is_key_and_directory_name corpusWebDb corpusWebDbEntries corpusWebDbResult rfl
      (by decide) (by decide) "sqli-basic" (sampleTemplate "sqli-basic" "docker-compose.yml")
      (by decide)⟩

/-- C2, the code at `api/sqli-basic` + `web/sqli-basic`: discovery succeeds,
and of the two templates with the ID `sqli-basic` only the one of the later
category is in the result; no duplicate-ID error is raised. -/
theorem discover_same_id_in_two_categories_overwrites :
    loadTemplatesFromDirectory corpusSameIdTwoCategories
      = .ok [("sqli-basic", namedTemplate "sqli-basic" "Web SQLi")] := by
  decide

/-! ### Errors of the walk function and of the loops around it -/

/-- A depth error is only ever answered at a real directory deeper than the
ceiling. -/
theorem loadFn_depth_error {rel : List String} {name : String} {d : Node} {m : TemplateMap}
    {e : Err} (h : (loadTemplatesFromCategoryFn rel name d m).1 = .err e)
    (he : e.isDepthExceeded = true) : d.isDir = true ∧ maxScanDepth < rel.length := by
  by_cases hrel : rel = []
  · simp [loadTemplatesFromCategoryFn, hrel] at h
  by_cases hname : hasPrefix name "." = true
  · simp only [loadTemplatesFromCategoryFn, hrel, hname, if_false, if_true] at h
    split at h <;> cases h
  have hname' : hasPrefix name "." = false := by simpa using hname
  by_cases hsym : d.isSymlink = true
  · simp [loadTemplatesFromCategoryFn, hrel, hname', hsym] at h
  by_cases hdir : d.isDir = true
  swap
  · simp [loadTemplatesFromCategoryFn, hrel, hname', hsym, hdir] at h
  refine ⟨hdir, ?_⟩
  by_contra hdepth
  have hdepth' : rel.length ≤ maxScanDepth := by omega
  by_cases htd : isTemplateDirectory d = true
  swap
  · have hlen : ¬ (rel.length - 1 + 1 > maxScanDepth) := by
      have : 0 < rel.length := List.length_pos.2 hrel
      omega
    simp [loadTemplatesFromCategoryFn, hrel, hname', hsym, hdir, hlen, htd] at h
  rw [loadFn_parses m hrel hname' hdir hdepth' htd] at h
  cases hload : LoadTemplate d with
  | none =>
    rw [hload] at h
    simp only [Signal.err.injEq] at h
    rw [← h] at he
    cases he
  | some tmpl =>
    rw [hload] at h
    by_cases hid : tmpl.ID = name
    · subst hid
      cases hget : mapGet m tmpl.ID with
      | none => simp [hget] at h
      | some existing =>
        simp only [hget, ne_eq, not_true_eq_false, if_false, Signal.err.injEq] at h
        rw [← h] at he
        cases he
    · simp only [ne_eq, hid, not_false_eq_true, if_true, Signal.err.injEq] at h
      rw [← h] at he
      cases he

/-- An error answered at a reached entry is the error of the category. -/
theorem category_error_of_visit {category : Node} {categoryName : String}
    {v : Visit TemplateMap} {e : Err} (hv : v ∈ categoryVisits category categoryName)
    (he : (v.result loadTemplatesFromCategoryFn).1 = .err e) :
    loadTemplatesFromCategory category categoryName = .error (.scanCategory categoryName e) := by
  obtain ⟨sig, s', hlin, _, hres⟩ := categoryVisits_spec category categoryName
  have hsig : sig = .err e := LinTrace.err_of_mem hlin hv he
  rcases hres with ⟨e', he', hload⟩ | ⟨hne, _⟩
  · rw [hsig] at he'
    cases he'
    exact hload
  · exact absurd hsig (hne e)

/-- The error of a category was answered at a reached entry. -/
theorem visit_of_category_error {category : Node} {categoryName : String} {e : Err}
    (h : loadTemplatesFromCategory category categoryName = .error e) :
    ∃ e' v, e = .scanCategory categoryName e' ∧ v ∈ categoryVisits category categoryName ∧
      VisitCtx loadDescends [] categoryName category v ∧
      (v.result loadTemplatesFromCategoryFn).1 = .err e' := by
  obtain ⟨sig, s', hlin, hctx, hres⟩ := categoryVisits_spec category categoryName
  rcases hres with ⟨e', he', hload⟩ | ⟨_, hok⟩
  · rw [hload] at h
    obtain ⟨v, hv, hve⟩ := LinTrace.mem_of_err hlin he'
    refine ⟨e', v, ?_, hv, hctx v hv, hve⟩
    injection h with h
    exact h.symm
  · rw [hok] at h; cases h

/-- A failing category that the loop is bound to try makes the loop fail. -/
theorem loadCategories_fails_of_mem {name : String} {category : Node} {e0 : Err}
    (hname : hasPrefix name "." = false) (hdir : category.isDir = true)
    (hfail : loadTemplatesFromCategory category name = .error e0) :
    ∀ (es : List (String × Node)) (acc : TemplateMap), (name, category) ∈ es →
      ∃ e, loadCategories es acc = .error e := by
  intro es
  induction es with
  | nil => intro acc h; cases h
  | cons x es ih =>
    intro acc hmem
    obtain ⟨n, c⟩ := x
    rw [loadCategories]
    by_cases hskip : (hasPrefix n "." || !c.isDir) = true
    · rw [if_pos hskip]
      rcases List.mem_cons.1 hmem with h1 | h2
      · cases h1
        simp [hname, hdir] at hskip
      · exact ih acc h2
    · rw [if_neg hskip]
      cases hload : loadTemplatesFromCategory c n with
      | error e => exact ⟨e, rfl⟩
      | ok ct =>
        rcases List.mem_cons.1 hmem with h1 | h2
        · cases h1
          rw [hfail] at hload
          cases hload
        · exact ih _ h2

/-- The error of the category loop is the error of one of the categories it
does not skip. -/
theorem category_of_loadCategories_error :
    ∀ (es : List (String × Node)) (acc : TemplateMap) (e : Err),
      loadCategories es acc = .error e →
      ∃ name category, (name, category) ∈ es ∧ hasPrefix name "." = false ∧
        category.isDir = true ∧ loadTemplatesFromCategory category name = .error e := by
  intro es
  induction es with
  | nil => intro acc e h; simp [loadCategories] at h
  | cons x es ih =>
    intro acc e h
    obtain ⟨n, c⟩ := x
    rw [loadCategories] at h
    by_cases hskip : (hasPrefix n "." || !c.isDir) = true
    · rw [if_pos hskip] at h
      obtain ⟨name, cat, hmem, h1, h2, h3⟩ := ih acc e h
      exact ⟨name, cat, List.mem_cons_of_mem _ hmem, h1, h2, h3⟩
    · rw [if_neg hskip] at h
      have hn : hasPrefix n "." = false := by cases hh : hasPrefix n "." <;> simp_all
      have hc : c.isDir = true := by cases hh : c.isDir <;> simp_all
      cases hload : loadTemplatesFromCategory c n with
      | error e' =>
        rw [hload] at h
        have : e' = e := by injection h
        subst this
        exact ⟨n, c, List.mem_cons_self _ _, hn, hc, hload⟩
      | ok ct =>
        rw [hload] at h
        obtain ⟨name, cat, hmem, h1, h2, h3⟩ := ih _ e h
        exact ⟨name, cat, List.mem_cons_of_mem _ hmem, h1, h2, h3⟩

/-- An error answered at an entry that discovery reaches is, wrapped with
the category, the error of discovery. -/
theorem loadCategories_error_of_visit {cat : String} {v : Visit TemplateMap} {e : Err}
    (he : (v.result loadTemplatesFromCategoryFn).1 = .err e) :
    ∀ (es : List (String × Node)) (acc : TemplateMap), (cat, v) ∈ visitsOfCategories es →
      loadCategories es acc = .error (.scanCategory cat e) := by
  intro es
  induction es with
  | nil => intro acc h; simp [visitsOfCategories] at h
  | cons x es ih =>
    intro acc hmem
    obtain ⟨n, c⟩ := x
    rw [visitsOfCategories] at hmem
    rw [loadCategories]
    by_cases hskip : (hasPrefix n "." || !c.isDir) = true
    · rw [if_pos hskip] at hmem ⊢
      exact ih acc hmem
    · rw [if_neg hskip] at hmem ⊢
      have hin : (cat, v) ∈ (categoryVisits c n).map (fun v => (n, v)) →
          loadTemplatesFromCategory c n = .error (.scanCategory cat e) := by
        intro hm
        obtain ⟨v', hv', heq⟩ := List.mem_map.1 hm
        cases heq
        exact category_error_of_visit hv' he
      cases hload : loadTemplatesFromCategory c n with
      | error e' =>
        rw [hload] at hmem
        have := hin hmem
        rw [hload] at this
        exact this
      | ok ct =>
        rw [hload] at hmem
        rcases List.mem_append.1 hmem with h1 | h2
        · have := hin h1
          rw [hload] at this
          cases this
        · exact ih _ h2

theorem discover_error_of_visit {repo : Node} {cat : String} {v : Visit TemplateMap} {e : Err}
    (hreach : (cat, v) ∈ discoverVisits repo)
    (he : (v.result loadTemplatesFromCategoryFn).1 = .err e) :
    loadTemplatesFromDirectory repo = .error (.scanCategory cat e) := by
  rw [discoverVisits] at hreach
  rw [loadTemplatesFromDirectory]
  cases hread : readDir repo with
  | none => rw [hread] at hreach; cases hreach
  | some dirEntry =>
    rw [hread] at hreach
    exact loadCategories_error_of_visit he dirEntry [] hreach

/-! ### Map reads after map writes -/

theorem mapGet_mapSet_self {β : Type} (m : List (String × β)) (k : String) (v : β) :
    mapGet (mapSet m k v) k = some v := by
  simp [mapSet, mapGet]

theorem mapGet_filter_ne {β : Type} (m : List (String × β)) {k k' : String} (h : k' ≠ k) :
    mapGet (m.filter (fun e => decide (e.1 ≠ k'))) k = mapGet m k := by
  induction m with
  | nil => rfl
  | cons x m ih =>
    obtain ⟨a, b⟩ := x
    rw [List.filter_cons]
    by_cases ha : a = k'
    · have hak : ¬ a = k := fun hk => h (by rw [← ha, hk])
      rw [if_neg (by simpa using ha), mapGet, if_neg hak]
      exact ih
    · rw [if_pos (by simpa using ha), mapGet, mapGet]
      by_cases hk : a = k
      · rw [if_pos hk, if_pos hk]
      · rw [if_neg hk, if_neg hk]
        exact ih

theorem mapGet_mapSet_ne {β : Type} (m : List (String × β)) {k k' : String} (v : β)
    (h : k' ≠ k) : mapGet (mapSet m k' v) k = mapGet m k := by
  rw [mapSet, mapGet, if_neg h]
  exact mapGet_filter_ne m h

/-- Once a template is stored under an ID, the walk function never replaces
or removes it. -/
theorem loadFn_keeps {k : String} {t : Template} (rel : List String) (name : String) (d : Node)
    (m : TemplateMap) (h : mapGet m k = some t) :
    mapGet (loadTemplatesFromCategoryFn rel name d m).2 k = some t := by
  rcases loadFn_effect rel name d m with hsame | ⟨t', _, _, _, _, _, _, hnone, heq⟩
  · rw [hsame]; exact h
  · rw [heq]
    have hne : t'.ID ≠ k := by
      intro hk
      rw [hk, h] at hnone
      cases hnone
    simp only []
    rw [mapGet_mapSet_ne m t' hne]
    exact h

theorem Visit.parsesDescriptor_iff {σ : Type} (v : Visit σ) :
    v.parsesDescriptor = true ↔
      v.rel ≠ [] ∧ hasPrefix v.name "." = false ∧ v.node.isDir = true ∧
        v.rel.length ≤ maxScanDepth ∧ isTemplateDirectory v.node = true := by
  simp [Visit.parsesDescriptor, and_assoc]

/-- C3. If the walk of a category reaches two template directories with the
same base name whose descriptors carry the same ID (reaching a template
directory meaning that the walk gets as far as its descriptor: the entry is a
real, non-hidden directory within the depth ceiling that contains
`index.yaml`), then `loadTemplatesFromCategory` fails with the duplicate-ID
error raised at the second one, naming the first one's display name; and
discovery over any repository having this directory as a category returns an
error, hence no mapping. -/
theorem category_fails_on_second_directory_with_same_id (category : Node)
    (categoryName : String) (v1 v2 : Visit TemplateMap) (t1 t2 : Template)
    (horder : VisitedBefore (categoryVisits category categoryName) v1 v2)
    (h1 : v1.parsesDescriptor = true) (hl1 : LoadTemplate v1.node = some t1)
    (h2 : v2.parsesDescriptor = true) (hl2 : LoadTemplate v2.node = some t2)
    (hname : v2.name = v1.name) (hsame : t2.ID = t1.ID) :
    loadTemplatesFromCategory category categoryName
        = .error (.scanCategory categoryName (.duplicateID t2.ID t1.Info.Name)) ∧
      ∀ (repo : Node) (dirEntry : List (String × Node)), readDir repo = some dirEntry →
        (categoryName, category) ∈ dirEntry → hasPrefix categoryName "." = false →
        category.isDir = true → ∃ e, loadTemplatesFromDirectory repo = .error e := by
  obtain ⟨l1, l2, hl, hv2⟩ := horder
  obtain ⟨sig, s', hlin, _, _⟩ := categoryVisits_spec category categoryName
  rw [hl] at hlin
  obtain ⟨s0, hsuf⟩ := LinTrace.suffix hlin
  obtain ⟨hok, hkeep⟩ := LinTrace.head_before (fun m => mapGet m t1.ID = some t1)
    (fun rel name d s hs => loadFn_keeps rel name d s hs) hsuf hv2
  obtain ⟨hr1, hn1, hd1, hdep1, htd1⟩ := (Visit.parsesDescriptor_iff v1).1 h1
  obtain ⟨hr2, hn2, hd2, hdep2, htd2⟩ := (Visit.parsesDescriptor_iff v2).1 h2
  -- the first directory was loaded: its visit did not fail
  have hid1 : t1.ID = v1.name := by
    by_contra hne
    have : (v1.result loadTemplatesFromCategoryFn).1 = .err (.idMismatch t1.ID v1.name) := by
      rw [Visit.result, loadFn_mismatch v1.pre hr1 hn1 hd1 hdep1 htd1 hl1 hne]
    exact hok _ this
  have hstored : mapGet (v1.result loadTemplatesFromCategoryFn).2 t1.ID = some t1 := by
    cases hget : mapGet v1.pre t1.ID with
    | some existing =>
      have : (v1.result loadTemplatesFromCategoryFn).1
          = .err (.duplicateID t1.ID existing.Info.Name) := by
        rw [Visit.result, loadFn_duplicate v1.pre hr1 hn1 hd1 hdep1 htd1 hl1 hid1 hget]
      exact absurd this (hok _)
    | none =>
      rw [Visit.result, loadFn_stores v1.pre hr1 hn1 hd1 hdep1 htd1 hl1 hid1 hget]
      exact mapGet_mapSet_self _ _ _
  have hpre2 : mapGet v2.pre t1.ID = some t1 := hkeep hstored
  have hid2 : t2.ID = v2.name := by rw [hsame, hid1, hname]
  have herr : (v2.result loadTemplatesFromCategoryFn).1
      = .err (.duplicateID t2.ID t1.Info.Name) := by
    rw [← hsame] at hpre2
    rw [Visit.result, loadFn_duplicate v2.pre hr2 hn2 hd2 hdep2 htd2 hl2 hid2 hpre2]
  have hmem : v2 ∈ categoryVisits category categoryName := by
    rw [hl]
    exact List.mem_append_right _ (List.mem_cons_of_mem _ hv2)
  have hfail := category_error_of_visit hmem herr
  refine ⟨hfail, ?_⟩
  intro repo dirEntry hread hin hcat hdir
  rw [loadTemplatesFromDirectory, hread]
  exact loadCategories_fails_of_mem hcat hdir hfail dirEntry [] hin

/-- C3, at the category `web` holding `a/dup` and `b/dup`. -/
theorem category_fails_on_second_directory_with_same_id_witness :
    VisitedBefore (categoryVisits categorySameIdTwoSubpaths "web") visitFirstDup visitSecondDup ∧
    loadTemplatesFromCategory categorySameIdTwoSubpaths "web"
      = .error (.scanCategory "web" (.duplicateID "dup" "first")) :=
  have horder : VisitedBefore (categoryVisits categorySameIdTwoSubpaths "web")
      visitFirstDup visitSecondDup :=
    ⟨[⟨[], "web", categorySameIdTwoSubpaths, []⟩,
      ⟨["a"], "a", .dir [("dup", templateDirOf (namedTemplate "dup" "first"))], []⟩],
     [⟨["b"], "b", .dir [("dup", templateDirOf (namedTemplate "dup" "second"))],
        [("dup", namedTemplate "dup" "first")]⟩, visitSecondDup],
     rfl, List.mem_cons_of_mem _ (List.mem_cons_self _ _)⟩
  ⟨horder,
    (category_fails_on_second_directory_with_same_id categorySameIdTwoSubpaths "web"
      visitFirstDup visitSecondDup (namedTemplate "dup" "first") (namedTemplate "dup" "second")
      horder (by decide) rfl (by decide) rfl rfl rfl).1⟩

/-- C4. If the walk of discovery reaches a template directory and parses its
descriptor (the entry is a real, non-hidden directory within the depth
ceiling that contains `index.yaml`, and `LoadTemplate` yields `tmpl`), and the
parsed ID differs from the directory's base name, then discovery fails with
the ID-mismatch error, wrapped with the category, and returns no mapping,
whatever was loaded before. -/
theorem discover_fails_on_id_mismatch (repo : Node) (cat : String) (v : Visit TemplateMap)
    (tmpl : Template) (hreach : (cat, v) ∈ discoverVisits repo)
    (hparse : v.parsesDescriptor = true) (hload : LoadTemplate v.node = some tmpl)
    (hne : tmpl.ID ≠ v.name) :
    loadTemplatesFromDirectory repo
      = .error (.scanCategory cat (.idMismatch tmpl.ID v.name)) := by
  obtain ⟨hr, hn, hd, hdep, htd⟩ := (Visit.parsesDescriptor_iff v).1 hparse
  refine discover_error_of_visit hreach ?_
  rw [Visit.result, loadFn_mismatch v.pre hr hn hd hdep htd hload hne]

/-- C4, at the corpus `web/good`, `web/wrong` (descriptor ID `other`). -/
theorem discover_fails_on_id_mismatch_witness :
    ("web", visitWrong) ∈ discoverVisits corpusIdMismatch ∧
    loadTemplatesFromDirectory corpusIdMismatch
      = .error (.scanCategory "web" (.idMismatch "other" "wrong")) :=
  have hreach : ("web", visitWrong) ∈ discoverVisits corpusIdMismatch :=
    @List.getElem?_mem _ (discoverVisits corpusIdMismatch) 2 _ rfl
  ⟨hreach,
    discover_fails_on_id_mismatch corpusIdMismatch "web" visitWrong
      (sampleTemplate "other" "docker-compose.yml") hreach (by decide) rfl (by decide)⟩

/-! ### Depth -/

theorem dirHeight_le_of_mem : ∀ {es : List (String × Node)} {name : String} {child : Node},
    (name, child) ∈ es → child.dirHeight ≤ entriesDirHeight es := by
  intro es
  induction es with
  | nil => intro name child h; cases h
  | cons x es ih =>
    intro name child hmem
    obtain ⟨n, c⟩ := x
    rw [entriesDirHeight]
    rcases List.mem_cons.1 hmem with h1 | h2
    · cases h1
      exact le_max_left _ _
    · exact le_trans (ih h2) (le_max_right _ _)

/-- A path through real directories is no longer than the tree is high. -/
theorem EntryAt.length_add_dirHeight_le {root : Node} {path : List String} {d : Node}
    (h : EntryAt root path d) : path.length + d.dirHeight ≤ root.dirHeight := by
  induction h with
  | here d => simp
  | step hmem _ ih =>
    rw [Node.dirHeight]
    have := dirHeight_le_of_mem hmem
    simp only [List.length_cons]
    omega

/-- A real directory below a category lies no deeper than `categoryDepth`. -/
theorem EntryAt.length_le_categoryDepth {category : Node} {path : List String} {d : Node}
    (h : EntryAt category path d) (hd : d.isDir = true) (hpath : path ≠ []) :
    path.length ≤ categoryDepth category := by
  have hle := h.length_add_dirHeight_le
  have hpos : 1 ≤ d.dirHeight := by
    cases d with
    | dir es => rw [Node.dirHeight]; omega
    | file t => cases hd
    | symlink t => cases hd
  cases h with
  | here d => exact absurd rfl hpath
  | step hmem hrest =>
    rw [Node.dirHeight] at hle
    rw [categoryDepth]
    omega

/-- C5. Depth is counted from the category root (`rel` has one component for
a direct child) against the ceiling `maxScanDepth = 10`.
(1) If the walk of discovery reaches a directory at depth 11 or more (a real
directory that the walk does not skip as hidden), discovery fails with the
depth error, wrapped with the category.
(2) If under every category the deepest real directory lies at depth at most
10, discovery never fails with a depth error.
(3) In the corpus whose only chain of directories ends with a template
directory at depth exactly 10, that template is loaded. -/
theorem depth_ceiling :
    maxScanDepth = 10 ∧
    (∀ (repo : Node) (cat : String) (v : Visit TemplateMap),
      (cat, v) ∈ discoverVisits repo → v.entersDirectory = true → 11 ≤ v.rel.length →
      loadTemplatesFromDirectory repo = .error (.scanCategory cat (.depthExceeded v.rel))) ∧
    (∀ (repo : Node) (dirEntry : List (String × Node)), readDir repo = some dirEntry →
      (∀ name category, (name, category) ∈ dirEntry → categoryDepth category ≤ 10) →
      ∀ e, loadTemplatesFromDirectory repo = .error e → e.isDepthExceeded = false) ∧
    (∃ category, readDir corpusDepth10 = some [("web", category)] ∧
      categoryDepth category = 10 ∧
      loadTemplatesFromDirectory corpusDepth10
        = .ok [("tpl", sampleTemplate "tpl" "docker-compose.yml")]) := by
  refine ⟨rfl, ?_, ?_, ?_⟩
  · intro repo cat v hreach henter hdepth
    have h : v.rel ≠ [] ∧ hasPrefix v.name "." = false ∧ v.node.isDir = true := by
      simpa [Visit.entersDirectory, and_assoc] using henter
    refine discover_error_of_visit hreach ?_
    rw [Visit.result, loadFn_too_deep v.pre h.1 h.2.1 h.2.2 (by rw [maxScanDepth]; omega)]
  · intro repo dirEntry hread hshallow e hfail
    rw [loadTemplatesFromDirectory, hread] at hfail
    obtain ⟨name, category, hmem, _, _, hcat⟩ :=
      category_of_loadCategories_error dirEntry [] e hfail
    obtain ⟨e', v, he, _, hctx, hres⟩ := visit_of_category_error hcat
    cases hde : e.isDepthExceeded with
    | false => rfl
    | true =>
      exfalso
      rw [he, Err.isDepthExceeded] at hde
      obtain ⟨hdir, hdeep⟩ := loadFn_depth_error hres hde
      obtain ⟨p, hp, hat, _, _, _⟩ := hctx.unfold
      have hp' : v.rel = p := by simpa using hp
      have hpne : p ≠ [] := by
        intro h0
        rw [hp', h0] at hdeep
        simp at hdeep
      have h1 := hat.length_le_categoryDepth hdir hpne
      have h2 := hshallow name category hmem
      rw [hp', maxScanDepth] at hdeep
      omega
  · exact ⟨_, rfl, by decide, by decide⟩

/-- C5 (1), at the corpus whose template directory `tpl` lies at depth 11. -/
theorem depth_ceiling_witness :
    ("web", visitDepth11) ∈ discoverVisits corpusDepth11 ∧
    visitDepth11.entersDirectory = true ∧ 11 ≤ visitDepth11.rel.length ∧
    loadTemplatesFromDirectory corpusDepth11
      = .error (.scanCategory "web" (.depthExceeded visitDepth11.rel)) :=
  have hreach : ("web", visitDepth11) ∈ discoverVisits corpusDepth11 :=
    @List.getElem?_mem _ (discoverVisits corpusDepth11) 11 _ rfl
  ⟨hreach, by decide, by decide,
    depth_ceiling.2.1 corpusDepth11 "web" visitDepth11 hreach (by decide) (by decide)⟩

/-! ### Symbolic links -/

/-- A path through real directories cannot start at a symbolic link, so it
has no symbolic link among its components but possibly the last. -/
theorem EntryAt.of_symlink {target : Option Node} {path : List String} {d : Node}
    (h : EntryAt (.symlink target) path d) : path = [] := by
  cases h
  rfl

/-- Every proper prefix of a path through real directories ends at a real
directory. -/
theorem EntryAt.prefix_isDir {root : Node} {path : List String} {d : Node}
    (h : EntryAt root path d) :
    ∀ p q, path = p ++ q → q ≠ [] → ∃ mid, EntryAt root p mid ∧ mid.isDir = true := by
  induction h with
  | here d =>
    intro p q hpq hq
    have : q = [] := (List.append_eq_nil.1 hpq.symm).2
    exact absurd this hq
  | @step entries name child rest d hmem hrest ih =>
    intro p q hpq hq
    cases p with
    | nil => exact ⟨_, EntryAt.here _, rfl⟩
    | cons a p =>
      simp only [List.cons_append, List.cons.injEq] at hpq
      obtain ⟨mid, hmid, hdir⟩ := ih p q hpq.2 hq
      rw [← hpq.1]
      exact ⟨mid, EntryAt.step hmem hmid, hdir⟩

/-- C6. A directory that is a symbolic link is never entered by discovery.
(1) Every entry the walk function is ever called on lies below the repository
root on a path through real directories only (`EntryAt` never passes through
a link).  (2) Every template of a successful result was stored by the walk
function at such an entry, a real directory (`v.stores t`).  (3) Called on a symbolic link, whatever its
target, the walk leaves the map alone and raises no error.  (4) A symbolic
link at category level is not a category. -/
theorem discover_never_enters_symlink (repo : Node) (dirEntry : List (String × Node))
    (hread : readDir repo = some dirEntry) :
    (∀ cat v, (cat, v) ∈ discoverVisits repo →
      EntryAt (.dir dirEntry) (cat :: v.rel) v.node) ∧
    (∀ m, loadTemplatesFromDirectory repo = .ok m → ∀ k t, (k, t) ∈ m →
      ∃ cat v, (cat, v) ∈ discoverVisits repo ∧ v.stores t ∧
        EntryAt (.dir dirEntry) (cat :: v.rel) v.node) ∧
    (∀ rel name target m,
      (walkDir loadTemplatesFromCategoryFn rel name (.symlink target) m).2 = m ∧
      ∀ e, (walkDir loadTemplatesFromCategoryFn rel name (.symlink target) m).1 ≠ .err e) ∧
    (∀ name target rest acc,
      loadCategories ((name, .symlink target) :: rest) acc = loadCategories rest acc) := by
  refine ⟨?_, ?_, ?_, ?_⟩
  · intro cat v hreach
    rw [discoverVisits, hread] at hreach
    obtain ⟨category, hmem, _, _, _, hctx⟩ := visitsOfCategories_ctx dirEntry hreach
    obtain ⟨p, hp, hat, _⟩ := hctx.unfold
    have hp' : v.rel = p := by simpa using hp
    rw [hp']
    exact EntryAt.step hmem hat
  · intro m hok k t hkt
    obtain ⟨_, cat, v, hv, hst, hat, _, _⟩ := discover_provenance hread hok (k, t) hkt
    exact ⟨cat, v, hv, hst, hat⟩
  · intro rel name target m
    rw [walkDir_symlink]
    by_cases hrel : rel = []
    · simp [loadTemplatesFromCategoryFn, hrel]
    by_cases hname : hasPrefix name "." = true
    · simp [loadTemplatesFromCategoryFn, hrel, hname, Node.isDir]
    · have hname' : hasPrefix name "." = false := by simpa using hname
      simp [loadTemplatesFromCategoryFn, hrel, hname', Node.isSymlink]
  · intro name target rest acc
    rw [loadCategories]
    simp [Node.isDir]

/-- C6, at the corpus `web/a`, `web/z-link -> (a valid template directory)`:
only `a` is in the result. -/
theorem discover_never_enters_symlink_witness :
    readDir corpusSymlinkLast = some corpusSymlinkLastEntries ∧
    loadTemplatesFromDirectory corpusSymlinkLast
      = .ok [("a", sampleTemplate "a" "docker-compose.yml")] ∧
    ∃ cat v, (cat, v) ∈ discoverVisits corpusSymlinkLast ∧
      v.stores (sampleTemplate "a" "docker-compose.yml") ∧
      EntryAt (.dir corpusSymlinkLastEntries) (cat :: v.rel) v.node :=
  ⟨rfl, by decide,
    (discover_never_enters_symlink corpusSymlinkLast corpusSymlinkLastEntries rfl).2.1
      [("a", sampleTemplate "a" "docker-compose.yml")] (by decide) "a"
      (sampleTemplate "a" "docker-compose.yml") (by decide)⟩

/-- C7, the code at `web/a-link` (a symbolic link) + `web/b` (a template
directory sorted after the link): the `SkipDir` answered for the link ends the
loop over the entries of `web`, so `b` is never visited and the result is
empty; without the link, `b` is loaded. -/
theorem symlink_hides_later_siblings :
    loadTemplatesFromDirectory corpusSymlinkFirst = .ok [] ∧
    loadTemplatesFromDirectory corpusWithoutSymlink
      = .ok [("b", sampleTemplate "b" "docker-compose.yml")] := by
  decide

/-! ### Template directories are not descended into -/

theorem lookupEntry_filter_self (name : String) (es : List (String × Node)) :
    lookupEntry name (es.filter (fun e => decide (e.1 = name))) = lookupEntry name es := by
  induction es with
  | nil => rfl
  | cons x es ih =>
    obtain ⟨a, b⟩ := x
    rw [List.filter_cons]
    by_cases ha : a = name
    · rw [if_pos (by simpa using ha), lookupEntry, lookupEntry, if_pos ha, if_pos ha]
    · rw [if_neg (by simpa using ha), lookupEntry, if_neg ha]
      exact ih

theorem lookupEntry_emptyTemplateDirs (name : String) (es : List (String × Node)) :
    lookupEntry name (entriesEmptyTemplateDirs es)
      = (lookupEntry name es).map Node.emptyTemplateDirs := by
  induction es with
  | nil => rfl
  | cons x es ih =>
    obtain ⟨a, b⟩ := x
    rw [entriesEmptyTemplateDirs, lookupEntry, lookupEntry]
    by_cases ha : a = name
    · rw [if_pos ha, if_pos ha]; rfl
    · rw [if_neg ha, if_neg ha]; exact ih

theorem statChild_dir (es : List (String × Node)) (name : String) :
    (Node.dir es).statChild name = (lookupEntry name es).bind Node.resolve := by
  simp [Node.statChild, Node.resolve]

/-- Emptying template directories changes neither whether an entry resolves
nor the descriptor it resolves to. -/
theorem resolve_emptyTemplateDirs (c : Node) :
    (c.emptyTemplateDirs.resolve.isSome = c.resolve.isSome) ∧
    (∀ t, c.emptyTemplateDirs.resolve = some (.file t) ↔ c.resolve = some (.file t)) := by
  cases c with
  | file t => simp [Node.emptyTemplateDirs]
  | symlink t => simp [Node.emptyTemplateDirs]
  | dir es =>
    rw [Node.emptyTemplateDirs]
    split <;> simp [Node.resolve]

theorem isTemplateDirectory_emptied (es : List (String × Node)) :
    isTemplateDirectory (.dir (entriesEmptyTemplateDirs es)) = isTemplateDirectory (.dir es) := by
  rw [isTemplateDirectory, isTemplateDirectory, statChild_dir, statChild_dir,
    lookupEntry_emptyTemplateDirs]
  cases lookupEntry "index.yaml" es with
  | none => rfl
  | some c => exact (resolve_emptyTemplateDirs c).1

theorem isTemplateDirectory_filtered (es : List (String × Node)) :
    isTemplateDirectory (.dir (es.filter (fun e => decide (e.1 = "index.yaml"))))
      = isTemplateDirectory (.dir es) := by
  rw [isTemplateDirectory, isTemplateDirectory, statChild_dir, statChild_dir,
    lookupEntry_filter_self]

theorem LoadTemplate_filtered (es : List (String × Node)) :
    LoadTemplate (.dir (es.filter (fun e => decide (e.1 = "index.yaml"))))
      = LoadTemplate (.dir es) := by
  rw [LoadTemplate, LoadTemplate, statChild_dir, statChild_dir, lookupEntry_filter_self]

/-- The walk function looks at an entry only through its type, the presence
of `index.yaml` and the parsed descriptor. -/
theorem loadFn_congr {d d' : Node} (rel : List String) (name : String) (m : TemplateMap)
    (h1 : d.isDir = d'.isDir) (h2 : d.isSymlink = d'.isSymlink)
    (h3 : isTemplateDirectory d = isTemplateDirectory d')
    (h4 : isTemplateDirectory d = true → LoadTemplate d = LoadTemplate d') :
    loadTemplatesFromCategoryFn rel name d m = loadTemplatesFromCategoryFn rel name d' m := by
  by_cases htd : isTemplateDirectory d = true
  · simp only [loadTemplatesFromCategoryFn, ← h1, ← h2, ← h3, ← h4 htd]
  · have htd' : isTemplateDirectory d = false := by simpa using htd
    have htd2 : isTemplateDirectory d' = false := by rw [← h3]; exact htd'
    simp only [loadTemplatesFromCategoryFn, ← h1, ← h2, htd', htd2]
    simp

theorem walk_emptyTemplateDirs :
    ∀ d : Node, ∀ (rel : List String) (name : String) (m : TemplateMap), rel ≠ [] →
      walkDir loadTemplatesFromCategoryFn rel name d.emptyTemplateDirs m
        = walkDir loadTemplatesFromCategoryFn rel name d m := by
  refine Node.induct
    (Q := fun es => ∀ (rel : List String) (m : TemplateMap),
      walkEntries loadTemplatesFromCategoryFn rel (entriesEmptyTemplateDirs es) m
        = walkEntries loadTemplatesFromCategoryFn rel es m)
    ?_ ?_ ?_ ?_ ?_
  · intro t rel name m _; rw [Node.emptyTemplateDirs]
  · intro t rel name m _; rw [Node.emptyTemplateDirs]
  · intro es ih rel name m hrel
    rw [Node.emptyTemplateDirs]
    by_cases htd : isTemplateDirectory (.dir es) = true
    · rw [if_pos htd, walkDir_dir, walkDir_dir]
      have hfn : loadTemplatesFromCategoryFn rel name
            (.dir (es.filter (fun e => decide (e.1 = "index.yaml")))) m
          = loadTemplatesFromCategoryFn rel name (.dir es) m :=
        loadFn_congr rel name m rfl rfl (isTemplateDirectory_filtered es)
          (fun _ => LoadTemplate_filtered es)
      rw [hfn]
      have hnn : (loadTemplatesFromCategoryFn rel name (.dir es) m).1 ≠ .nil :=
        loadFn_template_not_nil m hrel rfl htd
      cases hsig : (loadTemplatesFromCategoryFn rel name (.dir es) m).1 with
      | nil => exact absurd hsig hnn
      | skipDir => rfl
      | skipAll => rfl
      | err e => rfl
    · rw [if_neg htd, walkDir_dir, walkDir_dir]
      have hfn : loadTemplatesFromCategoryFn rel name (.dir (entriesEmptyTemplateDirs es)) m
          = loadTemplatesFromCategoryFn rel name (.dir es) m :=
        loadFn_congr rel name m rfl rfl (isTemplateDirectory_emptied es)
          (fun h => by rw [isTemplateDirectory_emptied] at h; exact absurd h htd)
      rw [hfn]
      cases hsig : (loadTemplatesFromCategoryFn rel name (.dir es) m).1 with
      | nil => exact ih rel _
      | skipDir => rfl
      | skipAll => rfl
      | err e => rfl
  · intro rel m; rw [entriesEmptyTemplateDirs]
  · intro n c es ihc ihes rel m
    rw [entriesEmptyTemplateDirs, walkEntries_cons, walkEntries_cons,
      ihc (rel ++ [n]) n m (by simp)]
    cases hsig : (walkDir loadTemplatesFromCategoryFn (rel ++ [n]) n c m).1 with
    | nil => exact ihes rel _
    | skipDir => rfl
    | skipAll => rfl
    | err e => rfl

theorem walkEntries_emptyTemplateDirs (es : List (String × Node)) (rel : List String)
    (m : TemplateMap) :
    walkEntries loadTemplatesFromCategoryFn rel (entriesEmptyTemplateDirs es) m
      = walkEntries loadTemplatesFromCategoryFn rel es m := by
  induction es generalizing m with
  | nil => rw [entriesEmptyTemplateDirs]
  | cons x es ih =>
    obtain ⟨n, c⟩ := x
    rw [entriesEmptyTemplateDirs, walkEntries_cons, walkEntries_cons,
      walk_emptyTemplateDirs c (rel ++ [n]) n m (by simp)]
    cases hsig : (walkDir loadTemplatesFromCategoryFn (rel ++ [n]) n c m).1 with
    | nil => exact ih _
    | skipDir => rfl
    | skipAll => rfl
    | err e => rfl

theorem loadTemplatesFromCategory_emptied (es : List (String × Node)) (name : String) :
    loadTemplatesFromCategory (.dir (entriesEmptyTemplateDirs es)) name
      = loadTemplatesFromCategory (.dir es) name := by
  have hroot : ∀ es' : List (String × Node),
      loadTemplatesFromCategoryFn [] name (.dir es') [] = (.nil, []) := by
    intro es'; simp [loadTemplatesFromCategoryFn]
  simp only [loadTemplatesFromCategory, WalkDir, walkDir_dir, hroot,
    walkEntries_emptyTemplateDirs]

theorem loadCategories_emptied (es : List (String × Node)) :
    ∀ acc, loadCategories (emptyTemplateDirsOfCorpus es) acc = loadCategories es acc := by
  induction es with
  | nil => intro acc; rfl
  | cons x es ih =>
    intro acc
    obtain ⟨n, c⟩ := x
    have hcons : emptyTemplateDirsOfCorpus ((n, c) :: es)
        = (n, match c with
              | .dir entries => .dir (entriesEmptyTemplateDirs entries)
              | d => d) :: emptyTemplateDirsOfCorpus es := rfl
    rw [hcons]
    cases c with
    | dir entries =>
      simp only [loadCategories, Node.isDir, loadTemplatesFromCategory_emptied, ih]
    | file t => simp only [loadCategories, Node.isDir, ih]
    | symlink t => simp only [loadCategories, Node.isDir, ih]

/-- C8. Discovery never descends into a template directory.
(1) Its outcome, the returned mapping or the error, is the same on the corpus
and on the corpus in which every template directory (a directory below a
category that contains `index.yaml`) has been emptied of everything but its
`index.yaml`: whatever lies beneath a template directory, nested template
directories included, is neither present in the result nor the cause of any
error.
(2) No entry the walk function is ever called on, hence no descriptor it
parses, lies beneath a template directory: the directory at every proper,
non-empty prefix `q` of the entry's path below its category is a real
directory that does not contain `index.yaml`. -/
theorem discover_ignores_inside_of_template_directories (repo : Node)
    (dirEntry : List (String × Node)) (hread : readDir repo = some dirEntry) :
    loadTemplatesFromDirectory repo
      = loadTemplatesFromDirectory (.dir (emptyTemplateDirsOfCorpus dirEntry)) ∧
    ∀ cat v, (cat, v) ∈ discoverVisits repo →
      ∀ q r, v.rel = q ++ r → q ≠ [] → r ≠ [] →
        ∃ category mid, (cat, category) ∈ dirEntry ∧ EntryAt category q mid ∧
          mid.isDir = true ∧ isTemplateDirectory mid = false := by
  constructor
  · have h2 : readDir (.dir (emptyTemplateDirsOfCorpus dirEntry))
        = some (emptyTemplateDirsOfCorpus dirEntry) := by
      simp [readDir, Node.resolve]
    rw [loadTemplatesFromDirectory, loadTemplatesFromDirectory, hread, h2]
    exact (loadCategories_emptied dirEntry []).symm
  · intro cat v hreach q r hqr hq hr
    rw [discoverVisits, hread] at hreach
    obtain ⟨category, hmem, _, _, _, p, hp, hdesc, _⟩ := visitsOfCategories_ctx dirEntry hreach
    have hp' : v.rel = p := by simpa using hp
    obtain ⟨mid, hmid, hdir, htd⟩ := hdesc.no_template_between q r (by rw [← hp']; exact hqr) hq hr
    exact ⟨category, mid, hmem, hmid, hdir, htd⟩

/-- C8, at `web/outer` holding `inner` with a descriptor of its own whose ID
does not match: the nested directory goes unnoticed. -/
theorem discover_ignores_inside_of_template_directories_witness :
    readDir (.dir corpusNestedTemplateEntries) = some corpusNestedTemplateEntries ∧
    emptyTemplateDirsOfCorpus corpusNestedTemplateEntries
      = [("web", .dir [("outer",
          .dir [("index.yaml", .file (some (sampleTemplate "outer" "c.yml")))])])] ∧
    loadTemplatesFromDirectory (.dir corpusNestedTemplateEntries)
      = .ok [("outer", sampleTemplate "outer" "c.yml")] :=
  ⟨rfl, rfl,
    (discover_ignores_inside_of_template_directories (.dir corpusNestedTemplateEntries)
      corpusNestedTemplateEntries rfl).1.trans (by decide)⟩

/-! ### Hidden entries -/

/-- Below the walk root a hidden entry, whatever it is, is passed over: the
map is left alone and the loop over its siblings goes on. -/
theorem walkDir_hidden {rel : List String} {name : String} (d : Node) (m : TemplateMap)
    (hrel : rel ≠ []) (hname : hasPrefix name "." = true) :
    walkDir loadTemplatesFromCategoryFn rel name d m = (.nil, m) := by
  cases d with
  | file t =>
    rw [walkDir_file]
    simp [loadTemplatesFromCategoryFn, hrel, hname, Node.isDir]
  | symlink t =>
    rw [walkDir_symlink]
    simp [loadTemplatesFromCategoryFn, hrel, hname, Node.isDir]
  | dir es =>
    have hfn : loadTemplatesFromCategoryFn rel name (.dir es) m = (.skipDir, m) := by
      simp [loadTemplatesFromCategoryFn, hrel, hname, Node.isDir]
    rw [walkDir_dir, hfn]

/-- C9. Hidden entries are skipped by discovery.
(1) A top-level entry whose name starts with `.` is not treated as a
category: the category loop behaves as if it were absent.
(2) Below a category an entry whose name starts with `.`, be it a file, a
link or a directory with any subtree, is skipped: the loop over the entries
of its directory behaves as if it were absent, so it changes nothing in the
map, raises no error and does not keep its siblings from being visited.
(3) Every template of a successful result was stored by the walk function at
an entry (`v.stores t`) whose path `cat :: v.rel` below the repository root
has no component starting with `.`. -/
theorem hidden_entries_are_skipped :
    (∀ name d rest acc, hasPrefix name "." = true →
      loadCategories ((name, d) :: rest) acc = loadCategories rest acc) ∧
    (∀ rel name d rest m, hasPrefix name "." = true →
      walkEntries loadTemplatesFromCategoryFn rel ((name, d) :: rest) m
        = walkEntries loadTemplatesFromCategoryFn rel rest m) ∧
    (∀ repo dirEntry m, readDir repo = some dirEntry →
      loadTemplatesFromDirectory repo = .ok m → ∀ k t, (k, t) ∈ m →
      ∃ cat v, (cat, v) ∈ discoverVisits repo ∧ v.stores t ∧
        EntryAt (.dir dirEntry) (cat :: v.rel) v.node ∧
        ∀ c ∈ cat :: v.rel, hasPrefix c "." = false) := by
  refine ⟨?_, ?_, ?_⟩
  · intro name d rest acc hname
    rw [loadCategories]
    simp [hname]
  · intro rel name d rest m hname
    rw [walkEntries_cons, walkDir_hidden d m (by simp) hname]
  · intro repo dirEntry m hread hok k t hkt
    obtain ⟨_, cat, v, hv, hst, hat, _, hhid⟩ := discover_provenance hread hok (k, t) hkt
    exact ⟨cat, v, hv, hst, hat, hhid⟩

/-- C9, at a corpus with a hidden top-level directory and, under `web`, a
hidden template directory, a hidden link and a hidden file before the
template directory `a`: only `a` is loaded. -/
theorem hidden_entries_are_skipped_witness :
    loadTemplatesFromDirectory (.dir corpusHiddenEntries)
      = .ok [("a", sampleTemplate "a" "docker-compose.yml")] ∧
    ∃ cat v, (cat, v) ∈ discoverVisits (.dir corpusHiddenEntries) ∧
      v.stores (sampleTemplate "a" "docker-compose.yml") ∧
      EntryAt (.dir corpusHiddenEntries) (cat :: v.rel) v.node ∧
      ∀ c ∈ cat :: v.rel, hasPrefix c "." = false :=
  ⟨by decide,
    hidden_entries_are_skipped.2.2 (.dir corpusHiddenEntries) corpusHiddenEntries
      [("a", sampleTemplate "a" "docker-compose.yml")] rfl (by decide) "a"
      (sampleTemplate "a" "docker-compose.yml") (by decide)⟩

/-! ### The configured docker-compose path -/

/-- C10, the code at a template whose docker-compose path is the absolute
path `/nonexistent/docker-compose.yml`, which names no file on the disk:
`GetDockerComposePath` returns that path and its directory with no error,
since the branch for absolute paths returns before `os.Stat` is consulted.
For the sibling template whose relative path names no file the invalid-path
error is raised. -/
theorem absolute_compose_path_is_not_checked :
    statPath diskComposePaths "/nonexistent/docker-compose.yml" = none ∧
    GetDockerComposePath diskComposePaths "abs" "/repo"
      = .ok ("/nonexistent/docker-compose.yml", "/nonexistent") ∧
    GetDockerComposePath diskComposePaths "rel" "/repo"
      = .error (.invalidPath "rel" "/repo/web/rel/missing.yml") := by
  refine ⟨rfl, ?_, ?_⟩ <;> decide

/-! ### The loop of `GetDockerComposePath` -/

theorem composePathLoop_cons (disk : Node) (templateID repoPath : String) (name : String)
    (entry : Node) (rest : List (String × Node)) :
    composePathLoop disk templateID repoPath ((name, entry) :: rest) =
      match composePathInCategory disk templateID repoPath name entry with
      | none => composePathLoop disk templateID repoPath rest
      | some r => r := by
  rw [composePathLoop, composePathInCategory]
  by_cases hskip : (hasPrefix name "." || !entry.isDir) = true
  · rw [if_pos hskip, if_pos hskip]
  · rw [if_neg hskip, if_neg hskip]
    cases locateTemplateDir disk templateID repoPath name entry with
    | none => rfl
    | some templateDir =>
      simp only []
      cases LoadTemplateAt disk templateDir with
      | none => rfl
      | some tmpl =>
        simp only []
        by_cases hid : tmpl.ID ≠ templateID
        · rw [if_pos hid, if_pos hid]
        · rw [if_neg hid, if_neg hid]

/-- Entries at which the loop body continues do not matter. -/
theorem composePathLoop_skip (disk : Node) (templateID repoPath : String)
    (rest : List (String × Node)) :
    ∀ pre : List (String × Node),
      (∀ x ∈ pre, composePathInCategory disk templateID repoPath x.1 x.2 = none) →
      composePathLoop disk templateID repoPath (pre ++ rest)
        = composePathLoop disk templateID repoPath rest := by
  intro pre
  induction pre with
  | nil => intro _; rfl
  | cons x pre ih =>
    intro h
    obtain ⟨n, c⟩ := x
    have hx := h (n, c) (List.mem_cons_self _ _)
    simp only [] at hx
    rw [List.cons_append, composePathLoop_cons, hx]
    exact ih (fun y hy => h y (List.mem_cons_of_mem _ hy))

/-- A successful or failing return of the loop is the return of the body at
some entry; only "not found" comes from the end of the loop. -/
theorem composePathLoop_result (disk : Node) (templateID repoPath : String) :
    ∀ (es : List (String × Node)) (r : Except Err (String × String)),
      composePathLoop disk templateID repoPath es = r →
      r = .error (.notFound templateID) ∨
      ∃ name entry, (name, entry) ∈ es ∧
        composePathInCategory disk templateID repoPath name entry = some r := by
  intro es
  induction es with
  | nil =>
    intro r h
    left
    rw [← h, composePathLoop]
  | cons x es ih =>
    intro r h
    obtain ⟨n, c⟩ := x
    rw [composePathLoop_cons] at h
    cases hbody : composePathInCategory disk templateID repoPath n c with
    | none =>
      rw [hbody] at h
      rcases ih r h with h1 | ⟨name, entry, hmem, hb⟩
      · exact Or.inl h1
      · exact Or.inr ⟨name, entry, List.mem_cons_of_mem _ hmem, hb⟩
    | some r' =>
      rw [hbody] at h
      simp only [] at h
      right
      exact ⟨n, c, List.mem_cons_self _ _, by rw [hbody, h]⟩

/-- What it means for the loop body to return. -/
theorem composePathInCategory_some {disk : Node} {templateID repoPath name : String}
    {entry : Node} {r : Except Err (String × String)}
    (h : composePathInCategory disk templateID repoPath name entry = some r) :
    hasPrefix name "." = false ∧ entry.isDir = true ∧
    ∃ templateDir tmpl, locateTemplateDir disk templateID repoPath name entry = some templateDir ∧
      LoadTemplateAt disk templateDir = some tmpl ∧ tmpl.ID = templateID ∧
      composePathOf disk templateID templateDir tmpl = r := by
  rw [composePathInCategory] at h
  by_cases hskip : (hasPrefix name "." || !entry.isDir) = true
  · rw [if_pos hskip] at h; cases h
  rw [if_neg hskip] at h
  have hn : hasPrefix name "." = false := by cases hh : hasPrefix name "." <;> simp_all
  have hd : entry.isDir = true := by cases hh : entry.isDir <;> simp_all
  refine ⟨hn, hd, ?_⟩
  cases hloc : locateTemplateDir disk templateID repoPath name entry with
  | none => rw [hloc] at h; cases h
  | some templateDir =>
    rw [hloc] at h
    simp only [] at h
    cases hload : LoadTemplateAt disk templateDir with
    | none => rw [hload] at h; cases h
    | some tmpl =>
      rw [hload] at h
      simp only [] at h
      by_cases hid : tmpl.ID ≠ templateID
      · rw [if_pos hid] at h; cases h
      · rw [if_neg hid] at h
        exact ⟨templateDir, tmpl, rfl, hload, not_not.1 hid, by injection h⟩

theorem composePathInCategory_of {disk : Node} {templateID repoPath name : String}
    {entry : Node} {templateDir : String} {tmpl : Template}
    (hname : hasPrefix name "." = false) (hdir : entry.isDir = true)
    (hloc : locateTemplateDir disk templateID repoPath name entry = some templateDir)
    (hload : LoadTemplateAt disk templateDir = some tmpl) (hid : tmpl.ID = templateID) :
    composePathInCategory disk templateID repoPath name entry
      = some (composePathOf disk templateID templateDir tmpl) := by
  rw [composePathInCategory]
  have hskip : ¬ (hasPrefix name "." || !entry.isDir) = true := by simp [hname, hdir]
  rw [if_neg hskip, hloc]
  simp only []
  rw [hload]
  simp only []
  rw [if_neg (not_not.2 hid)]

/-- C11. If the first category at which the loop of `GetDockerComposePath`
does not continue (every earlier entry being skipped, or holding no template
directory for `templateID`, or one that does not load or carries another ID)
locates a template directory that parses with `ID = templateID` and whose
`Providers` has no entry `docker-compose`, the function returns the
provider-not-configured error (an error return carries the empty strings for
both paths), and it does so whatever entries follow: no further category is
consulted. -/
theorem missing_provider_is_reported (disk : Node) (templateID repoPath : String)
    (pre post : List (String × Node)) (name : String) (entry : Node) (templateDir : String)
    (tmpl : Template)
    (hread : statPath disk repoPath = some (.dir (pre ++ (name, entry) :: post)))
    (hfirst : ∀ x ∈ pre, composePathInCategory disk templateID repoPath x.1 x.2 = none)
    (hname : hasPrefix name "." = false) (hdir : entry.isDir = true)
    (hloc : locateTemplateDir disk templateID repoPath name entry = some templateDir)
    (hload : LoadTemplateAt disk templateDir = some tmpl) (hid : tmpl.ID = templateID)
    (hprov : mapGet tmpl.Providers "docker-compose" = none) :
    GetDockerComposePath disk templateID repoPath = .error (.missingProvider templateID) ∧
    ∀ post', composePathLoop disk templateID repoPath (pre ++ (name, entry) :: post')
      = .error (.missingProvider templateID) := by
  have hloop : ∀ post', composePathLoop disk templateID repoPath (pre ++ (name, entry) :: post')
      = .error (.missingProvider templateID) := by
    intro post'
    rw [composePathLoop_skip disk templateID repoPath _ pre hfirst, composePathLoop_cons,
      composePathInCategory_of hname hdir hloc hload hid]
    simp only [composePathOf, hprov]
  refine ⟨?_, hloop⟩
  rw [GetDockerComposePath, hread]
  exact hloop post

/-- C11, at the repository whose category `db` has no template `np`, whose
category `web` has `np` without any provider, and whose later category `zz`
has `np` with a docker-compose provider. -/
theorem missing_provider_is_reported_witness :
    statPath diskMissingProvider "/repo" = some (.dir repoMissingProviderEntries) ∧
    composePathInCategory diskMissingProvider "np" "/repo" "db"
      (.dir [("other", templateDir "other")]) = none ∧
    GetDockerComposePath diskMissingProvider "np" "/repo" = .error (.missingProvider "np") :=
  ⟨rfl, by decide,
    (missing_provider_is_reported diskMissingProvider "np" "/repo"
      [("db", .dir [("other", templateDir "other")])] [("zz", .dir [("np", templateDir "np")])]
      "web" (.dir [("np", templateDirOf (templateWithoutProvider "np"))]) "/repo/web/np"
      (templateWithoutProvider "np") rfl
      (by intro x hx; simp only [List.mem_singleton] at hx; subst hx; decide)
      (by decide) rfl (by decide) (by decide) rfl rfl).1⟩

/-! ### Absolute paths -/

theorem filepathIsAbs_iff (path : String) :
    filepathIsAbs path = true ↔ ∃ cs, path.data = '/' :: cs := by
  rw [filepathIsAbs, hasPrefix]
  have hsl : ("/" : String).data = ['/'] := rfl
  rw [hsl]
  cases path.data with
  | nil =>
    constructor
    · intro h; cases h
    · rintro ⟨cs, h⟩; cases h
  | cons c cs =>
    have hdef : List.isPrefixOf ['/'] (c :: cs) = (('/' == c) && List.isPrefixOf [] cs) := rfl
    have hnil : List.isPrefixOf ([] : List Char) cs = true := by cases cs <;> rfl
    rw [hdef, hnil, Bool.and_true]
    constructor
    · intro h
      exact ⟨cs, by rw [eq_of_beq h]⟩
    · rintro ⟨cs', h⟩
      injection h with h1 h2
      rw [h1]
      exact beq_self_eq_true _

theorem filepathIsAbs_append {a : String} (b : String) (h : filepathIsAbs a = true) :
    filepathIsAbs (a ++ b) = true := by
  obtain ⟨cs, hcs⟩ := (filepathIsAbs_iff a).1 h
  exact (filepathIsAbs_iff _).2 ⟨cs ++ b.data, by simp [String.data_append, hcs]⟩

theorem filepathIsAbs_ne_empty {a : String} (h : filepathIsAbs a = true) : a ≠ "" := by
  intro h0
  rw [h0] at h
  exact absurd h (by decide)

theorem filepathIsAbs_clean {path : String} (h : filepathIsAbs path = true) :
    filepathIsAbs (filepathClean path) = true := by
  rw [filepathClean, if_neg (filepathIsAbs_ne_empty h)]
  simp only [h, if_true]
  exact filepathIsAbs_append _ (by decide)

theorem filepathIsAbs_joinSep {a : String} (rest : List String) (h : filepathIsAbs a = true) :
    filepathIsAbs (joinSep (a :: rest)) = true := by
  cases rest with
  | nil => exact h
  | cons b rest =>
    show filepathIsAbs (a ++ "/" ++ joinSep (b :: rest)) = true
    exact filepathIsAbs_append _ (filepathIsAbs_append _ h)

/-- Joining onto an absolute first element gives an absolute path. -/
theorem filepathIsAbs_join {a : String} (rest : List String) (h : filepathIsAbs a = true) :
    filepathIsAbs (filepathJoin (a :: rest)) = true := by
  have hne : ¬ decide (a = "") = true := by simpa using filepathIsAbs_ne_empty h
  rw [filepathJoin, List.dropWhile_cons, if_neg hne]
  exact filepathIsAbs_clean (filepathIsAbs_joinSep rest h)

theorem filepathIsAbs_walkPath (rel : List String) :
    ∀ {root : String}, filepathIsAbs root = true → filepathIsAbs (walkPath root rel) = true := by
  induction rel with
  | nil => intro root h; exact h
  | cons n rel ih =>
    intro root h
    exact ih (filepathIsAbs_join [n] h)

/-- The walk function of `findTemplateInCategory` leaves `foundPath` alone or
sets it to the path of the visited entry. -/
theorem findFn_state (categoryPath templateID : String) (rel : List String) (name : String)
    (d : Node) (foundPath : String) :
    (findTemplateInCategoryFn categoryPath templateID rel name d foundPath).2 = foundPath ∨
    (findTemplateInCategoryFn categoryPath templateID rel name d foundPath).2
      = walkPath categoryPath rel := by
  simp only [findTemplateInCategoryFn]
  split_ifs <;> simp

/-- The state a walk ends in satisfies whatever holds at the start and is
preserved by the walk function. -/
theorem walkDir_state_invariant {σ : Type} (fn : WalkDirFunc σ) (P : σ → Prop)
    (hstep : ∀ rel name d s, P s → P (fn rel name d s).2)
    (rel : List String) (name : String) (d : Node) (s : σ) (hs : P s) :
    P (walkDir fn rel name d s).2 := by
  obtain ⟨new, _, _, hlin, _⟩ :=
    walkDir_traced fn (fun _ _ _ => True) (fun _ _ _ _ _ => trivial) d rel name s []
  exact LinTrace.invariant P hlin hs (fun v _ hv => hstep v.rel v.name v.node v.pre hv)

/-- What `findTemplateInCategory` finds below an absolute category path is an
absolute path. -/
theorem findTemplateInCategory_abs {categoryPath : String} {category : Node}
    {categoryName templateID found : String} (habs : filepathIsAbs categoryPath = true)
    (h : findTemplateInCategory categoryPath category categoryName templateID = .ok found)
    (hne : found ≠ "") : filepathIsAbs found = true := by
  have hinv := walkDir_state_invariant (findTemplateInCategoryFn categoryPath templateID)
    (fun s => s = "" ∨ filepathIsAbs s = true)
    (fun rel name d s hs => by
      rcases findFn_state categoryPath templateID rel name d s with h1 | h2
      · rw [h1]; exact hs
      · rw [h2]; exact Or.inr (filepathIsAbs_walkPath rel habs))
    [] categoryName category "" (Or.inl rfl)
  have hfound : found
      = (walkDir (findTemplateInCategoryFn categoryPath templateID) [] categoryName category "").2 := by
    cases hsig :
        (walkDir (findTemplateInCategoryFn categoryPath templateID) [] categoryName category "").1 with
    | err e => simp [findTemplateInCategory, WalkDir, hsig] at h
    | nil =>
      simp only [findTemplateInCategory, WalkDir, hsig] at h
      injection h with h
      exact h.symm
    | skipDir =>
      simp only [findTemplateInCategory, WalkDir, hsig] at h
      injection h with h
      exact h.symm
    | skipAll =>
      simp only [findTemplateInCategory, WalkDir, hsig] at h
      injection h with h
      exact h.symm
  rw [← hfound] at hinv
  rcases hinv with h1 | h2
  · exact absurd h1 hne
  · exact h2

/-- A template directory located below an absolute repository path has an
absolute path. -/
theorem locateTemplateDir_abs {disk : Node} {templateID repoPath name : String} {entry : Node}
    {templateDir : String} (habs : filepathIsAbs repoPath = true)
    (h : locateTemplateDir disk templateID repoPath name entry = some templateDir) :
    filepathIsAbs templateDir = true := by
  simp only [locateTemplateDir] at h
  split_ifs at h with hdirect
  · injection h with h
    rw [← h]
    exact filepathIsAbs_join _ habs
  · cases hfind : findTemplateInCategory (filepathJoin [repoPath, name]) entry name templateID with
    | error e => rw [hfind] at h; cases h
    | ok found =>
      rw [hfind] at h
      simp only [] at h
      split_ifs at h with hne
      injection h with h
      rw [← h]
      exact findTemplateInCategory_abs (filepathIsAbs_join _ habs) hfind hne

/-- C12. For an absolute `repoPath`, whenever `GetDockerComposePath` succeeds
with `(composePath, workingDir)`: the template was located in some category
at `templateDir`, loaded from there with `ID = templateID` and a provider
entry `docker-compose`; `composePath` is that entry's path verbatim when it is
absolute and `filepath.Join(templateDir, path)` otherwise; `composePath` is
absolute; and `workingDir` is `filepath.Dir(composePath)`. -/
theorem compose_path_is_resolved_against_template_directory (disk : Node)
    (templateID repoPath composePath workingDir : String)
    (habs : filepathIsAbs repoPath = true)
    (hok : GetDockerComposePath disk templateID repoPath = .ok (composePath, workingDir)) :
    filepathIsAbs composePath = true ∧ workingDir = filepathDir composePath ∧
    ∃ dirEntries name entry templateDir tmpl providerConfig,
      statPath disk repoPath = some (.dir dirEntries) ∧ (name, entry) ∈ dirEntries ∧
      locateTemplateDir disk templateID repoPath name entry = some templateDir ∧
      LoadTemplateAt disk templateDir = some tmpl ∧ tmpl.ID = templateID ∧
      mapGet tmpl.Providers "docker-compose" = some providerConfig ∧
      composePath = (if filepathIsAbs providerConfig.Path then providerConfig.Path
        else filepathJoin [templateDir, providerConfig.Path]) := by
  rw [GetDockerComposePath] at hok
  cases hread : statPath disk repoPath with
  | none => rw [hread] at hok; cases hok
  | some root =>
    rw [hread] at hok
    cases root with
    | file t => cases hok
    | symlink t => cases hok
    | dir dirEntries =>
      simp only [] at hok
      rcases composePathLoop_result disk templateID repoPath dirEntries _ hok with h0 | h1
      · cases h0
      obtain ⟨name, entry, hmem, hbody⟩ := h1
      obtain ⟨_, _, templateDir, tmpl, hloc, hload, hid, hres⟩ := composePathInCategory_some hbody
      have hdirabs := locateTemplateDir_abs habs hloc
      rw [composePathOf] at hres
      cases hprov : mapGet tmpl.Providers "docker-compose" with
      | none => rw [hprov] at hres; cases hres
      | some providerConfig =>
        rw [hprov] at hres
        simp only [] at hres
        split_ifs at hres with hempty hpabs hstat
        · injection hres with hres
          injection hres with h1 h2
          refine ⟨by rw [← h1]; exact hpabs, by rw [← h2, ← h1], dirEntries, name, entry,
            templateDir, tmpl, providerConfig, rfl, hmem, hloc, hload, hid, hprov, ?_⟩
          rw [if_pos hpabs, h1]
        · injection hres with hres
          injection hres with h1 h2
          refine ⟨by rw [← h1]; exact filepathIsAbs_join _ hdirabs, by rw [← h2, ← h1],
            dirEntries, name, entry, templateDir, tmpl, providerConfig, rfl, hmem, hloc, hload,
            hid, hprov, ?_⟩
          rw [if_neg hpabs, h1]

/-- C12, at the template `ok` of the repository `/repo`, whose docker-compose
path is the relative `docker-compose.yml`. -/
theorem compose_path_is_resolved_against_template_directory_witness :
    filepathIsAbs "/repo" = true ∧
    GetDockerComposePath diskComposePaths "ok" "/repo"
      = .ok ("/repo/web/ok/docker-compose.yml", "/repo/web/ok") ∧
    filepathIsAbs "/repo/web/ok/docker-compose.yml" = true ∧
    "/repo/web/ok" = filepathDir "/repo/web/ok/docker-compose.yml" :=
  have h := compose_path_is_resolved_against_template_directory diskComposePaths "ok" "/repo"
    "/repo/web/ok/docker-compose.yml" "/repo/web/ok" (by decide) (by decide)
  ⟨by decide, by decide, h.1, h.2.1⟩


/-! ### Resolution against discovery -/

/-- C13, the code at the repository `/repo` whose category `web` holds `t`, a
symbolic link to a valid template directory: discovery does not load it and
`findTemplateInCategory` does not find it, but the direct-child check of
`GetDockerComposePath` goes through `os.Stat`, which follows the link, so the
linked directory is accepted as the template directory and its compose path
is returned. -/
theorem resolution_accepts_symlinked_template_directory :
    statPath diskSymlinkedTemplate "/repo" = some repoSymlinkedTemplate ∧
    loadTemplatesFromDirectory repoSymlinkedTemplate = .ok [] ∧
    findTemplateInCategory "/repo/web" (.dir [("t", .symlink (some (templateDir "t")))])
      "web" "t" = .ok "" ∧
    GetDockerComposePath diskSymlinkedTemplate "t" "/repo"
      = .ok ("/repo/web/t/docker-compose.yml", "/repo/web/t") := by
  refine ⟨rfl, ?_, ?_, ?_⟩ <;> decide

/-- C19, the code at three repositories on which discovery returns the
template `t` (stored at `web/sub/t`) and `GetDockerComposePath` answers "not
found" for `t`: one with a regular file at depth 11, one with a hidden file
at depth 11 (the walk of `findTemplateInCategory` checks the depth of every
entry before anything else and fails, the walk of discovery only checks
directories it does not skip), and one whose category `web` itself contains
`index.yaml` (the walk of `findTemplateInCategory` treats the category root
as a template directory with another name and skips it whole, the walk of
discovery passes over the category root). -/
theorem resolution_misses_discovered_template :
    (statPath diskDeepFile "/repo" = some repoDeepFile ∧
      loadTemplatesFromDirectory repoDeepFile
        = .ok [("t", sampleTemplate "t" "docker-compose.yml")] ∧
      GetDockerComposePath diskDeepFile "t" "/repo" = .error (.notFound "t")) ∧
    (statPath diskDeepHidden "/repo" = some repoDeepHidden ∧
      loadTemplatesFromDirectory repoDeepHidden
        = .ok [("t", sampleTemplate "t" "docker-compose.yml")] ∧
      GetDockerComposePath diskDeepHidden "t" "/repo" = .error (.notFound "t")) ∧
    (statPath diskCategoryWithIndex "/repo" = some repoCategoryWithIndex ∧
      loadTemplatesFromDirectory repoCategoryWithIndex
        = .ok [("t", sampleTemplate "t" "docker-compose.yml")] ∧
      GetDockerComposePath diskCategoryWithIndex "t" "/repo" = .error (.notFound "t")) := by
  refine ⟨⟨rfl, ?_, ?_⟩, ⟨rfl, ?_, ?_⟩, ⟨rfl, ?_, ?_⟩⟩ <;> decide


/-! ### Lookup by ID -/

theorem mem_of_mapGet {β : Type} {m : List (String × β)} {k : String} {v : β}
    (h : mapGet m k = some v) : (k, v) ∈ m := by
  induction m with
  | nil => cases h
  | cons x m ih =>
    obtain ⟨a, b⟩ := x
    rw [mapGet] at h
    by_cases ha : a = k
    · rw [if_pos ha] at h
      injection h with h
      rw [ha, h]
      exact List.mem_cons_self _ _
    · rw [if_neg ha] at h
      exact List.mem_cons_of_mem _ (ih h)

theorem mapGet_isSome_of_mem {β : Type} {m : List (String × β)} {k : String} {v : β}
    (h : (k, v) ∈ m) : ∃ v', mapGet m k = some v' := by
  induction m with
  | nil => cases h
  | cons x m ih =>
    obtain ⟨a, b⟩ := x
    rw [mapGet]
    by_cases ha : a = k
    · rw [if_pos ha]; exact ⟨b, rfl⟩
    · rw [if_neg ha]
      rcases List.mem_cons.1 h with h1 | h2
      · cases h1; exact absurd rfl ha
      · exact ih h2

/-- Every template of a successful discovery over a tree with valid entry
names sits under its own, non-empty ID. -/
theorem discover_entry_id {repo : Node} {dirEntry : List (String × Node)} {m : TemplateMap}
    (hread : readDir repo = some dirEntry) (hvalid : entriesNamesValid dirEntry = true)
    (h : loadTemplatesFromDirectory repo = .ok m) {k : String} {t : Template}
    (hkt : (k, t) ∈ m) : t.ID = k ∧ t.ID ≠ "" := by
  obtain ⟨hid, cat, v, _, hst, hat, hlast, _⟩ := discover_provenance hread h (k, t) hkt
  have hname : t.ID = v.name := hst.2.2.2.2.2.1
  refine ⟨hid, ?_⟩
  have hmem : v.name ∈ cat :: v.rel := List.mem_of_mem_getLast? hlast
  have hv := EntryAt.validNames hat (by rw [Node.namesValid]; exact hvalid) v.name hmem
  intro hempty
  rw [← hname, hempty] at hv
  exact absurd hv (by decide)

/-- C18. On the mapping returned by a successful discovery (over a file tree
with valid entry names) and for every string `id`: `GetByID` succeeds exactly
when `id` is a key of the mapping; on success the returned template is the
stored record and has `ID = id`; otherwise the result is the error
"template <id> not found" and no template. -/
theorem getByID_retrieves_by_id (repo : Node) (dirEntry : List (String × Node))
    (m : TemplateMap) (hread : readDir repo = some dirEntry)
    (hvalid : entriesNamesValid dirEntry = true)
    (hok : loadTemplatesFromDirectory repo = .ok m) (id : String) :
    ((∃ t, GetByID m id = .ok t) ↔ ∃ t, (id, t) ∈ m) ∧
    (∀ t, GetByID m id = .ok t → t.ID = id ∧ mapGet m id = some t) ∧
    ((¬ ∃ t, (id, t) ∈ m) → GetByID m id = .error ("template " ++ id ++ " not found")) := by
  have hget : ∀ t, mapGet m id = some t → GetByID m id = .ok t := by
    intro t ht
    have hne := (discover_entry_id hread hvalid hok (mem_of_mapGet ht)).2
    rw [GetByID, ht]
    simp only []
    rw [if_neg hne]
  have hback : ∀ t, GetByID m id = .ok t → mapGet m id = some t := by
    intro t ht
    rw [GetByID] at ht
    cases hm : mapGet m id with
    | none => rw [hm] at ht; cases ht
    | some t' =>
      rw [hm] at ht
      simp only [] at ht
      split_ifs at ht
      injection ht with ht
      rw [ht]
  refine ⟨⟨?_, ?_⟩, ?_, ?_⟩
  · rintro ⟨t, ht⟩
    exact ⟨t, mem_of_mapGet (hback t ht)⟩
  · rintro ⟨t, ht⟩
    obtain ⟨t', ht'⟩ := mapGet_isSome_of_mem ht
    exact ⟨t', hget t' ht'⟩
  · intro t ht
    have hm := hback t ht
    exact ⟨(discover_entry_id hread hvalid hok (mem_of_mapGet hm)).1, hm⟩
  · intro hno
    rw [GetByID]
    cases hm : mapGet m id with
    | none => rfl
    | some t => exact absurd ⟨t, mem_of_mapGet hm⟩ hno

/-- C18, at the corpus `db/weak-auth`, `web/sqli-basic` and the IDs
`sqli-basic` (a key) and `nope` (not a key). -/
theorem getByID_retrieves_by_id_witness :
    loadTemplatesFromDirectory corpusWebDb = .ok corpusWebDbResult ∧
    GetByID corpusWebDbResult "sqli-basic"
      = .ok (sampleTemplate "sqli-basic" "docker-compose.yml") ∧
    ((sampleTemplate "sqli-basic" "docker-compose.yml").ID = "sqli-basic" ∧
      mapGet corpusWebDbResult "sqli-basic"
        = some (sampleTemplate "sqli-basic" "docker-compose.yml")) ∧
    GetByID corpusWebDbResult "nope" = .error "template nope not found" :=
  ⟨by decide, by decide,
    (getByID_retrieves_by_id corpusWebDb corpusWebDbEntries corpusWebDbResult rfl (by decide)
      (by decide) "sqli-basic").2.1 (sampleTemplate "sqli-basic" "docker-compose.yml") (by decide),
    by decide⟩


/-! ## The docker-compose provider -/

theorem allRunning_iff (summary : List ContainerSummary) :
    allRunning summary = true ↔ ∀ s ∈ summary, s.State = "running" := by
  induction summary with
  | nil => simp [allRunning]
  | cons s rest ih =>
    rw [allRunning]
    by_cases hs : s.State = "running"
    · rw [if_neg (not_not.2 hs), ih]
      simp [hs]
    · rw [if_pos hs]
      simp [hs]

/-- C14. For every listing that the backend returns for the project, in
particular every non-empty one, `runComposeStats` reports `true` exactly when
the `State` of every resource is the string "running"; if some resource has
another `State` it returns `false` and no error; and if the listing fails it
returns `false` together with the error of the listing. -/
theorem status_is_up_iff_all_running :
    (∀ summary : List ContainerSummary,
      ((runComposeStats (.ok summary)).1 = true ↔ ∀ s ∈ summary, s.State = "running") ∧
      (runComposeStats (.ok summary)).2 = none ∧
      ((∃ s ∈ summary, s.State ≠ "running") → runComposeStats (.ok summary) = (false, none))) ∧
    (∀ err : String, runComposeStats (.error err) = (false, some err)) := by
  refine ⟨fun summary => ⟨?_, rfl, ?_⟩, fun err => rfl⟩
  · exact allRunning_iff summary
  · rintro ⟨s, hs, hne⟩
    have hfalse : allRunning summary = false := by
      cases h : allRunning summary with
      | false => rfl
      | true => exact absurd ((allRunning_iff summary).1 h s hs) hne
    rw [runComposeStats, hfalse]

/-- C14, at a listing with an exited resource and at one with only running
resources. -/
theorem status_is_up_iff_all_running_witness :
    runComposeStats (.ok listingOneExited) = (false, none) ∧
    (runComposeStats (.ok listingAllRunning)).1 = true :=
  ⟨(status_is_up_iff_all_running.1 listingOneExited).2.2 ⟨⟨"2", "db", "exited"⟩, by decide, by decide⟩,
    ((status_is_up_iff_all_running.1 listingAllRunning).1).2 (by decide)⟩

/-- C15, the code at the empty listing: the loop over the resources never
runs and `runComposeStats` returns `true` with no error, so an environment
that was never started or has been torn down is reported up. -/
theorem status_of_absent_environment_is_up :
    runComposeStats (.ok []) = (true, none) := by
  decide

/-! ### The phases of a start -/

/-- What running phases in order amounts to: either all of them were invoked
and succeeded, or the run ended with the first one that failed. -/
theorem runInOrder_spec (backend : Backend) :
    ∀ (plan done : List Call),
      (runInOrder backend done plan = (done ++ plan, none) ∧
        ∀ pre c post, plan = pre ++ c :: post → backend (done ++ pre) c = none) ∨
      (∃ pre c post e, plan = pre ++ c :: post ∧
        runInOrder backend done plan = (done ++ pre ++ [c], some e) ∧
        backend (done ++ pre) c = some e ∧
        ∀ pre' c' post', pre = pre' ++ c' :: post' → backend (done ++ pre') c' = none) := by
  intro plan
  induction plan with
  | nil =>
    intro done
    left
    refine ⟨by simp [runInOrder], ?_⟩
    intro pre c post h
    exact absurd h (by simp)
  | cons a plan ih =>
    intro done
    rw [runInOrder]
    cases ha : backend done a with
    | some e =>
      right
      exact ⟨[], a, plan, e, rfl, by simp, by simpa using ha, fun pre' c' post' h => absurd h (by simp)⟩
    | none =>
      simp only []
      rcases ih (done ++ [a]) with ⟨hrun, hall⟩ | ⟨pre, c, post, e, hplan, hrun, hc, hpre⟩
      · left
        refine ⟨by rw [hrun]; simp, ?_⟩
        intro pre c post h
        cases pre with
        | nil =>
          simp only [List.nil_append, List.cons.injEq] at h
          rw [← h.1]
          simpa using ha
        | cons b pre =>
          simp only [List.cons_append, List.cons.injEq] at h
          have := hall pre c post h.2
          rw [← h.1]
          simpa using this
      · right
        refine ⟨a :: pre, c, post, e, by rw [hplan]; rfl, by rw [hrun]; simp, by simpa using hc, ?_⟩
        intro pre' c' post' h
        cases pre' with
        | nil =>
          simp only [List.nil_append, List.cons.injEq] at h
          rw [← h.1]
          simpa using ha
        | cons b pre' =>
          simp only [List.cons_append, List.cons.injEq] at h
          have := hpre pre' c' post' h.2
          rw [← h.1]
          simpa using this

/-- The code of `runComposeUp` runs the phases of the specification in
order. -/
theorem runComposeUp_eq_runInOrder (backend : Backend) (project : Project) :
    runComposeUp backend project = runInOrder backend [] (startPhases project) := by
  by_cases hb : servicesToBuild project = []
  · cases h1 : backend [] Call.pull with
    | some e => simp [runComposeUp, startPhases, hb, runInOrder, h1]
    | none =>
      cases h2 : backend [Call.pull] (Call.create project.ServiceNames) with
      | some e => simp [runComposeUp, startPhases, hb, runInOrder, h1, h2]
      | none =>
        cases h3 : backend [Call.pull, Call.create project.ServiceNames]
          (Call.start project.Name project.ServiceNames) with
        | some e => simp [runComposeUp, startPhases, hb, runInOrder, h1, h2, h3]
        | none => simp [runComposeUp, startPhases, hb, runInOrder, h1, h2, h3]
  · have hlen : 0 < (servicesToBuild project).length := List.length_pos.2 hb
    cases h0 : backend [] (Call.build (servicesToBuild project)) with
    | some e => simp [runComposeUp, startPhases, hb, runInOrder, hlen, h0]
    | none =>
      cases h1 : backend [Call.build (servicesToBuild project)] Call.pull with
      | some e => simp [runComposeUp, startPhases, hb, runInOrder, hlen, h0, h1]
      | none =>
        cases h2 : backend [Call.build (servicesToBuild project), Call.pull]
          (Call.create project.ServiceNames) with
        | some e => simp [runComposeUp, startPhases, hb, runInOrder, hlen, h0, h1, h2]
        | none =>
          cases h3 : backend [Call.build (servicesToBuild project), Call.pull,
            Call.create project.ServiceNames]
            (Call.start project.Name project.ServiceNames) with
          | some e => simp [runComposeUp, startPhases, hb, runInOrder, hlen, h0, h1, h2, h3]
          | none => simp [runComposeUp, startPhases, hb, runInOrder, hlen, h0, h1, h2, h3]

theorem mem_servicesToBuild (project : Project) (n : String) :
    n ∈ servicesToBuild project ↔ ∃ svc, (n, svc) ∈ project.Services ∧ svc.Build ≠ none := by
  simp only [servicesToBuild, List.mem_map, List.mem_filter]
  constructor
  · rintro ⟨⟨a, svc⟩, ⟨hmem, hb⟩, rfl⟩
    refine ⟨svc, hmem, ?_⟩
    intro h0
    simp only [] at hb
    rw [h0] at hb
    cases hb
  · rintro ⟨svc, hmem, hb⟩
    refine ⟨(n, svc), ⟨hmem, ?_⟩, rfl⟩
    cases hsb : svc.Build with
    | none => exact absurd hsb hb
    | some b => rfl

theorem startPhases_no_down (project : Project) :
    ∀ c ∈ startPhases project, ∀ name, c ≠ .down name := by
  intro c hc name h
  subst h
  rw [startPhases] at hc
  split_ifs at hc <;> simp at hc

/-- C16. For every project and every backend, `runComposeUp` invokes the
phases in the order build, pull, create, start (it is the in-order run of
`startPhases`), where build is in the plan only when some service declares a
build specification and is then given exactly the services that declare one.
If the run returns no error, every phase of the plan was invoked and
succeeded. If it returns an error, that error is the one of the last phase
invoked, every phase before it succeeded, and no later phase was invoked. No
teardown is ever invoked. -/
theorem start_runs_phases_in_order (backend : Backend) (project : Project) :
    runComposeUp backend project = runInOrder backend [] (startPhases project) ∧
    (∀ n, n ∈ servicesToBuild project ↔
      ∃ svc, (n, svc) ∈ project.Services ∧ svc.Build ≠ none) ∧
    ((¬ ∃ n svc, (n, svc) ∈ project.Services ∧ svc.Build ≠ none) →
      startPhases project =
        [.pull, .create project.ServiceNames, .start project.Name project.ServiceNames]) ∧
    ((∃ n svc, (n, svc) ∈ project.Services ∧ svc.Build ≠ none) →
      startPhases project =
        [.build (servicesToBuild project), .pull, .create project.ServiceNames,
          .start project.Name project.ServiceNames]) ∧
    ((runComposeUp backend project).2 = none →
      (runComposeUp backend project).1 = startPhases project ∧
      ∀ pre c post, startPhases project = pre ++ c :: post → backend pre c = none) ∧
    (∀ err, (runComposeUp backend project).2 = some err →
      ∃ pre c post, startPhases project = pre ++ c :: post ∧
        (runComposeUp backend project).1 = pre ++ [c] ∧
        backend pre c = some err ∧
        ∀ pre' c' post', pre = pre' ++ c' :: post' → backend pre' c' = none) ∧
    (∀ c ∈ (runComposeUp backend project).1, ∀ name, c ≠ .down name) := by
  have href := runComposeUp_eq_runInOrder backend project
  have hspec := runInOrder_spec backend (startPhases project) []
  simp only [List.nil_append] at hspec
  rw [← href] at hspec
  refine ⟨href, mem_servicesToBuild project, ?_, ?_, ?_, ?_, ?_⟩
  · intro hnone
    have hb : servicesToBuild project = [] := by
      cases hsb : servicesToBuild project with
      | nil => rfl
      | cons n rest =>
        have hn : n ∈ servicesToBuild project := by rw [hsb]; exact List.mem_cons_self _ _
        obtain ⟨svc, hmem, hbuild⟩ := (mem_servicesToBuild project n).1 hn
        exact absurd ⟨n, svc, hmem, hbuild⟩ hnone
    simp [startPhases, hb]
  · rintro ⟨n, svc, hmem, hbuild⟩
    have hn : n ∈ servicesToBuild project := (mem_servicesToBuild project n).2 ⟨svc, hmem, hbuild⟩
    have hb : servicesToBuild project ≠ [] := List.ne_nil_of_mem hn
    simp [startPhases, hb]
  · intro hres
    rcases hspec with ⟨hrun, hall⟩ | ⟨pre, c, post, e, _, hrun, _, _⟩
    · exact ⟨by rw [hrun], hall⟩
    · rw [hrun] at hres
      cases hres
  · intro err hres
    rcases hspec with ⟨hrun, _⟩ | ⟨pre, c, post, e, hplan, hrun, hc, hpre⟩
    · rw [hrun] at hres
      cases hres
    · rw [hrun] at hres
      simp only [Option.some.injEq] at hres
      subst hres
      exact ⟨pre, c, post, hplan, by rw [hrun], hc, hpre⟩
  · intro c hc name
    apply startPhases_no_down project c
    rcases hspec with ⟨hrun, _⟩ | ⟨pre, c', post, e, hplan, hrun, _, _⟩
    · rw [hrun] at hc
      exact hc
    · rw [hrun] at hc
      rw [hplan]
      rcases List.mem_append.1 hc with h | h
      · exact List.mem_append_left _ h
      · rw [List.mem_singleton] at h
        subst h
        exact List.mem_append_right _ (List.mem_cons_self _ _)

/-! ### The project identity and the labels -/

theorem composeProjectName_injective (t1 t2 : Template) :
    composeProjectName t1 = composeProjectName t2 ↔ t1.ID = t2.ID := by
  constructor
  · intro h
    have hdata := congrArg String.data h
    simp only [composeProjectName, String.data_append] at hdata
    exact String.ext (List.append_cancel_left hdata)
  · intro h
    rw [composeProjectName, composeProjectName, h]

theorem mem_keys_mapSet {β : Type} (m : List (String × β)) (k : String) (v : β) (n : String) :
    n ∈ (mapSet m k v).map Prod.fst ↔ n = k ∨ n ∈ m.map Prod.fst := by
  simp only [mapSet, List.map_cons, List.mem_cons, List.mem_map, List.mem_filter]
  constructor
  · rintro (h | ⟨e, ⟨hmem, _⟩, rfl⟩)
    · exact Or.inl h
    · exact Or.inr ⟨e, hmem, rfl⟩
  · rintro (h | ⟨e, hmem, rfl⟩)
    · exact Or.inl h
    · by_cases hk : e.1 = k
      · exact Or.inl hk
      · exact Or.inr ⟨e, ⟨hmem, by simpa using hk⟩, rfl⟩

theorem foldl_mapSet_keys {β γ : Type} (f : String × γ → β) :
    ∀ (services : List (String × γ)) (acc : List (String × β)) (n : String),
      n ∈ (services.foldl (fun updated e => mapSet updated e.1 (f e)) acc).map Prod.fst ↔
        n ∈ acc.map Prod.fst ∨ n ∈ services.map Prod.fst := by
  intro services
  induction services with
  | nil => intro acc n; simp
  | cons e rest ih =>
    intro acc n
    rw [List.foldl_cons, ih, mem_keys_mapSet, List.map_cons, List.mem_cons]
    tauto

theorem foldl_mapSet_values {β γ : Type} (f : String × γ → β) (all : List (String × γ)) :
    ∀ (services : List (String × γ)) (acc : List (String × β)),
      (∀ e ∈ services, e ∈ all) →
      (∀ x ∈ acc, ∃ o, (x.1, o) ∈ all ∧ x.2 = f (x.1, o)) →
      ∀ x ∈ services.foldl (fun updated e => mapSet updated e.1 (f e)) acc,
        ∃ o, (x.1, o) ∈ all ∧ x.2 = f (x.1, o) := by
  intro services
  induction services with
  | nil => intro acc _ hacc x hx; exact hacc x hx
  | cons e rest ih =>
    intro acc hall hacc
    rw [List.foldl_cons]
    apply ih
    · intro e' he'
      exact hall e' (List.mem_cons_of_mem _ he')
    · intro x hx
      rcases mem_mapSet hx with h | h
      · subst h
        exact ⟨e.2, hall e (List.mem_cons_self _ _), rfl⟩
      · exact hacc x h

theorem labelService_labels (projectName workingDir composePath name : String)
    (service : ServiceConfig) :
    ∃ labels, (labelService projectName workingDir composePath name service).Labels = some labels ∧
      mapGet labels "com.docker.compose.project" = some projectName ∧
      mapGet labels "com.docker.compose.service" = some name := by
  refine ⟨_, rfl, ?_, ?_⟩
  · rw [mapGet_mapSet_ne _ _ (by decide), mapGet_mapSet_ne _ _ (by decide),
      mapGet_mapSet_ne _ _ (by decide), mapGet_mapSet_ne _ _ (by decide),
      mapGet_mapSet_ne _ _ (by decide), mapGet_mapSet_self]
  · rw [mapGet_mapSet_ne _ _ (by decide), mapGet_mapSet_ne _ _ (by decide),
      mapGet_mapSet_ne _ _ (by decide), mapGet_mapSet_ne _ _ (by decide),
      mapGet_mapSet_self]

/-- C17. The project name is "vt-compose-" followed by the template ID, so
two templates have the same project name exactly when they have the same ID.
When `loadComposeProject` returns a project, the compose path was resolved
for the template ID, the loader was called with that project name (also as
`COMPOSE_PROJECT_NAME`), the returned project has the name and exactly the
service names of the loaded one, and every service of the returned project
carries the label `com.docker.compose.project` equal to the project name and
the label `com.docker.compose.service` equal to its own name. -/
theorem project_identity_and_labels (disk : Node) (templatesPath : String)
    (loadWithContext : ConfigDetails → String → Except String Project)
    (template : Template) (result : Project)
    (hok : loadComposeProject disk templatesPath loadWithContext template = .ok result) :
    composeProjectName template = "vt-compose-" ++ template.ID ∧
    (∀ other : Template,
      composeProjectName template = composeProjectName other ↔ template.ID = other.ID) ∧
    ∃ composePath workingDir loaded,
      GetDockerComposePath disk template.ID templatesPath = .ok (composePath, workingDir) ∧
      loadWithContext
        ⟨workingDir, [composePath], [("COMPOSE_PROJECT_NAME", composeProjectName template)]⟩
        (composeProjectName template) = .ok loaded ∧
      result.Name = loaded.Name ∧
      (∀ n, n ∈ result.ServiceNames ↔ n ∈ loaded.ServiceNames) ∧
      ∀ n svc, (n, svc) ∈ result.Services →
        ∃ labels, svc.Labels = some labels ∧
          mapGet labels "com.docker.compose.project" = some (composeProjectName template) ∧
          mapGet labels "com.docker.compose.service" = some n := by
  refine ⟨rfl, composeProjectName_injective template, ?_⟩
  rw [loadComposeProject] at hok
  cases hpath : GetDockerComposePath disk template.ID templatesPath with
  | error err =>
    rw [hpath] at hok
    cases hok
  | ok paths =>
    obtain ⟨composePath, workingDir⟩ := paths
    rw [hpath] at hok
    simp only [] at hok
    cases hload : loadWithContext
        ⟨workingDir, [composePath], [("COMPOSE_PROJECT_NAME", composeProjectName template)]⟩
        (composeProjectName template) with
    | error err =>
      rw [hload] at hok
      cases hok
    | ok loaded =>
      rw [hload] at hok
      simp only [Except.ok.injEq] at hok
      subst hok
      refine ⟨composePath, workingDir, loaded, rfl, hload, rfl, ?_, ?_⟩
      · intro n
        simp only [Project.ServiceNames, updateServices]
        rw [foldl_mapSet_keys
          (fun e => labelService (composeProjectName template) workingDir composePath e.1 e.2)]
        simp
      · intro n svc hmem
        simp only [updateServices] at hmem
        obtain ⟨o, _, hsvc⟩ := foldl_mapSet_values
          (fun e => labelService (composeProjectName template) workingDir composePath e.1 e.2)
          loaded.Services loaded.Services [] (fun e he => he)
          (fun x hx => absurd hx (List.not_mem_nil x)) (n, svc) hmem
        simp only [] at hsvc
        rw [hsvc]
        exact labelService_labels _ _ _ _ _

/-- C17, at the template `ok` of the sample disk with the sample loader, which
returns the service `web` without labels and the service `db` with one. -/
theorem project_identity_and_labels_witness :
    loadComposeProject diskComposePaths "/repo" sampleLoader
      (sampleTemplate "ok" "docker-compose.yml") = .ok sampleLabelledProject ∧
    ∃ composePath workingDir loaded,
      GetDockerComposePath diskComposePaths "ok" "/repo" = .ok (composePath, workingDir) ∧
      sampleLoader ⟨workingDir, [composePath], [("COMPOSE_PROJECT_NAME", "vt-compose-ok")]⟩
        "vt-compose-ok" = .ok loaded ∧
      sampleLabelledProject.Name = loaded.Name ∧
      (∀ n, n ∈ sampleLabelledProject.ServiceNames ↔ n ∈ loaded.ServiceNames) ∧
      ∀ n svc, (n, svc) ∈ sampleLabelledProject.Services →
        ∃ labels, svc.Labels = some labels ∧
          mapGet labels "com.docker.compose.project" = some "vt-compose-ok" ∧
          mapGet labels "com.docker.compose.service" = some n :=
  ⟨by decide,
    (project_identity_and_labels diskComposePaths "/repo" sampleLoader
      (sampleTemplate "ok" "docker-compose.yml") sampleLabelledProject (by decide)).2.2⟩

end Vt
